import Mathlib

/-!
# Verification of the spreadsheet-to-database reconciliation engine

Shallow embedding of `backend/app/services/google_sheets_sync_service.py`
(class `GoogleSheetsSyncService`): the identifier parsers of
`_sync_employee_mappings` and `_store_schedule_data`, the freshness gate of
`sync_schedule_data`, the retry loop `_fetch_with_retry`, the employee
reconciler `_sync_employee_mappings`, the identifier-to-user index and the
cache writer `_store_schedule_data`, plus `_parse_date`,
`_normalize_shift_type` and `_get_time_range`.

Strings are modelled as `List Char` internally (`String` at the record
boundaries).  Python semantics that come from the standard library
(`str.strip`, `str.upper`, `str.isalpha`, `unicodedata.category`) are
modelled for the character ranges that actually occur in this code base:
ASCII plus the CJK characters used by the sheet headers and names; the
doc comment of each such helper states the modelled range.
-/

namespace SyncService

abbrev Chars := List Char

/-! ## Python string primitives -/

/-- Whitespace recognised by Python `str.strip()` with no arguments,
restricted to ASCII whitespace (the only whitespace this code base
produces). -/
def pyIsSpace (c : Char) : Bool :=
  c.toNat = 32 || c.toNat = 9 || c.toNat = 10 || c.toNat = 13 ||
    c.toNat = 11 || c.toNat = 12

/-- Python `str.strip()`: drop leading and trailing whitespace. -/
def stripChars (l : Chars) : Chars :=
  ((l.dropWhile pyIsSpace).reverse.dropWhile pyIsSpace).reverse

/-- Python `str.upper()` for one character: ASCII letters are uppercased,
every other character (digits, CJK, punctuation) is unchanged.  Matches
Python on the character ranges used here. -/
def pyToUpper (c : Char) : Char :=
  if 97 ≤ c.toNat ∧ c.toNat ≤ 122 then Char.ofNat (c.toNat - 32) else c

/-- Python `str.lower()` for one character (ASCII range). -/
def pyToLower (c : Char) : Char :=
  if 65 ≤ c.toNat ∧ c.toNat ≤ 90 then Char.ofNat (c.toNat + 32) else c

def upperChars (l : Chars) : Chars := l.map pyToUpper

def lowerChars (l : Chars) : Chars := l.map pyToLower

/-- Python `str.isdigit()` for one character: ASCII digits and fullwidth
digits (the decimal digits occurring in this code base). -/
def pyIsDigit (c : Char) : Bool :=
  (48 ≤ c.toNat && c.toNat ≤ 57) || (0xFF10 ≤ c.toNat && c.toNat ≤ 0xFF19)

/-- Python `str.isalpha()` for one character, modelled on the ranges used
here: ASCII letters, CJK unified ideographs, and kana. -/
def pyIsAlpha (c : Char) : Bool :=
  (65 ≤ c.toNat && c.toNat ≤ 90) || (97 ≤ c.toNat && c.toNat ≤ 122) ||
  (0x4E00 ≤ c.toNat && c.toNat ≤ 0x9FFF) ||
  (0x3040 ≤ c.toNat && c.toNat ≤ 0x30FF)

/-- Python `str.isalnum()` for one character (alpha or decimal digit on
the modelled ranges). -/
def pyIsAlnum (c : Char) : Bool := pyIsAlpha c || pyIsDigit c

/-- `unicodedata.category(c)[0] == 'C'` (control / format characters),
modelled as the Cc range plus the common Cf (invisible format)
characters; every character this development evaluates it on lies in a
range where this agrees with Python's `unicodedata`. -/
def unicodeCatC (c : Char) : Bool :=
  c.toNat < 0x20 || (0x7F ≤ c.toNat && c.toNat ≤ 0x9F) ||
  (0x200B ≤ c.toNat && c.toNat ≤ 0x200F) ||
  (0x202A ≤ c.toNat && c.toNat ≤ 0x202E) ||
  c.toNat = 0x2060 || c.toNat = 0xFEFF

/-- Prefix test on character lists. -/
def charsIsPrefix : Chars → Chars → Bool
  | [], _ => true
  | _ :: _, [] => false
  | a :: as, b :: bs => a = b && charsIsPrefix as bs

/-- Python `needle in haystack` substring test. -/
def charsIsSub (needle : Chars) : Chars → Bool
  | [] => needle.isEmpty
  | c :: rest => charsIsPrefix needle (c :: rest) || charsIsSub needle rest

/-- Substring test on `String` (Python `in`). -/
def strIsSub (needle hay : String) : Bool := charsIsSub needle.data hay.data

/-- Python `'/' in s`. -/
def hasSlash (l : Chars) : Bool := l.contains '/'

/-- Python `s.split('/', 1)`: split on the first `/`; returns the parts
before and after it (the whole string and `[]` when there is no `/`). -/
def splitOnFirstSlash : Chars → Chars × Chars
  | [] => ([], [])
  | c :: rest =>
    if c = '/' then ([], rest)
    else
      let p := splitOnFirstSlash rest
      (c :: p.1, p.2)

/-- Python `s.split('/')`: split on every `/`. -/
def splitSlashes : Chars → List Chars
  | [] => [[]]
  | c :: rest =>
    match splitSlashes rest with
    | [] => [[]]
    | h :: t => if c = '/' then [] :: h :: t else (c :: h) :: t

/-- Python `'/'.join(parts)`. -/
def joinSlashes : List Chars → Chars
  | [] => []
  | [p] => p
  | p :: rest => p ++ '/' :: joinSlashes rest

/-- String wrappers used at record boundaries. -/
def stripS (s : String) : String := String.mk (stripChars s.data)

def upperS (s : String) : String := String.mk (upperChars s.data)

def lowerS (s : String) : String := String.mk (lowerChars s.data)

/-! ## The code grammar and the two identifier parsers -/

/-- `re.match(r'^[A-Z]\d{2,3}$', s)`: one ASCII uppercase letter followed
by two or three decimal digits. -/
def matchCodePattern : Chars → Bool
  | [] => false
  | c :: rest =>
    (65 ≤ c.toNat && c.toNat ≤ 90) && (rest.length = 2 || rest.length = 3) &&
      rest.all pyIsDigit

/-- The looser id shape used by `_store_schedule_data`
(`len(s) >= 2 and s[0].isalpha() and s[1:].isdigit()`). -/
def storeIdPattern : Chars → Bool
  | [] => false
  | c :: rest => pyIsAlpha c && (!rest.isEmpty) && rest.all pyIsDigit

/-- Result of the roster-row identifier extraction in
`_sync_employee_mappings`. -/
structure SyncParsed where
  emp_id : Chars
  emp_name : Option Chars
  emp_name_id : Chars
deriving DecidableEq, Repr

/-- Identifier extraction of `_sync_employee_mappings` (lines 449-483):
`split('/', 1)` — the FIRST `/` — with the part after it required to
match `^[A-Z]\d{2,3}$` after upper/strip; a cell without `/` must itself
match the pattern after uppercasing.  Rows whose value is falsy or fails
the pattern are skipped (`none`). -/
def syncParseIdentifierL (cell : Chars) : Option SyncParsed :=
  if cell.isEmpty then none
  else
    let s := stripChars cell
    if hasSlash s then
      let p := splitOnFirstSlash s
      let name := stripChars p.1
      let empId := upperChars (stripChars p.2)
      if matchCodePattern empId then some ⟨empId, some name, s⟩ else none
    else
      let u := upperChars s
      if matchCodePattern u then some ⟨u, none, s⟩ else none

def syncParseIdentifier (cell : String) : Option SyncParsed :=
  syncParseIdentifierL cell.data

/-- Identifier extraction of `_store_schedule_data` (lines 1057-1100):
strip control characters, split on EVERY `/` and take the LAST part as
the id (checked against `storeIdPattern`), the join of the other parts
as the display name.  Returns `(employee_id?, display_name?)`. -/
def storeParseIdentifierL (cell : Chars) : Option Chars × Option Chars :=
  let identifier_str := stripChars cell
  let identifier_upper := upperChars identifier_str
  let keepNorm : Char → Bool := fun c =>
    !unicodeCatC c || c = '/' || c = '-' || c = '_'
  let identifier_normalized := stripChars (identifier_str.filter keepNorm)
  let keepId : Char → Bool := fun c => !unicodeCatC c || pyIsAlnum c
  if hasSlash identifier_normalized then
    let parts := splitSlashes identifier_normalized
    -- a string containing '/' always splits into at least two parts,
    -- so the `len(parts) >= 2` test of the source is always true here
    let name := stripChars (joinSlashes parts.dropLast)
    let id0 := upperChars (stripChars (parts.getLastD []))
    let id1 := stripChars (id0.filter keepId)
    if storeIdPattern id1 then (some id1, some name) else (none, some name)
  else
    let cleaned := stripChars (identifier_upper.filter keepId)
    if storeIdPattern cleaned then (some cleaned, none) else (none, none)

def storeParseIdentifier (cell : String) : Option Chars × Option Chars :=
  storeParseIdentifierL cell.data

/-! ## Shift normalization and time ranges -/

/-- `_normalize_shift_type` (lines 1544-1572). -/
def normalize_shift_type (shift_value : String) : String :=
  if shift_value = "" then "OFF"
  else
    let su := stripS (upperS shift_value)
    if su ∈ ["OFF", "休", "休假", "NULL", ""] then "OFF"
    else if ["櫃台", "二線", "藥局", "人力", "COUNTER", "DESK", "PHARMACY"].any
        (fun k => strIsSub k su) then "D"
    else if su ∈ ["E", "EVENING", "小夜"] then "E"
    else if su ∈ ["N", "NIGHT", "大夜"] then "N"
    else if su ∈ ["D", "DAY", "白班"] then "D"
    else if su.length = 1 ∧ su ∈ ["D", "E", "N"] then su
    else "D"

/-- `_get_time_range` (lines 1574-1582): dictionary lookup with default. -/
def get_time_range (shift_type : String) : String :=
  if shift_type = "D" then "08:00 - 16:00"
  else if shift_type = "E" then "16:00 - 00:00"
  else if shift_type = "N" then "00:00 - 08:00"
  else if shift_type = "OFF" then "--"
  else "--"

/-! ## Date parsing (`_parse_date`, lines 1501-1542) -/

structure Date where
  year : Nat
  month : Nat
  day : Nat
deriving DecidableEq, Repr

def isLeapYear (y : Nat) : Bool := (y % 4 = 0 && y % 100 ≠ 0) || y % 400 = 0

def daysInMonth (y m : Nat) : Nat :=
  if m = 2 then (if isLeapYear y then 29 else 28)
  else if m = 4 || m = 6 || m = 9 || m = 11 then 30
  else 31

/-- `datetime(year, month, day)` validity (raises `ValueError` ↦ `none`). -/
def mkValidDate (y m d : Nat) : Option Date :=
  if 1 ≤ y ∧ y ≤ 9999 ∧ 1 ≤ m ∧ m ≤ 12 ∧ 1 ≤ d ∧ d ≤ daysInMonth y m then
    some ⟨y, m, d⟩
  else none

def isAsciiDigit (c : Char) : Bool := '0' ≤ c && c ≤ '9'

def digitsVal (l : Chars) : Nat := l.foldl (fun a c => a * 10 + (c.toNat - 48)) 0

/-- Exactly `n` ASCII digits from the front. -/
def grabDigits (n : Nat) (l : Chars) : Option (Chars × Chars) :=
  let t := l.take n
  if t.length = n ∧ t.all isAsciiDigit then some (t, l.drop n) else none

/-- Maximal run of ASCII digits from the front (the field a `strptime`
numeric directive consumes, since every directive here is followed by a
non-digit literal or the end of the pattern). -/
def digitRun (l : Chars) : Chars × Chars := l.span isAsciiDigit

/-- `strptime` with pattern `%Y sep %m sep %d` (`%Y` is four digits, `%m`
and `%d` one or two, the whole string must be consumed, and the values
must form a real date). -/
def strptimeYMD (sep : Char) (l : Chars) : Option Date :=
  let p1 := digitRun l
  if p1.1.length = 4 then
    match p1.2 with
    | c :: r1 =>
      if c = sep then
        let p2 := digitRun r1
        if p2.1.length = 1 ∨ p2.1.length = 2 then
          match p2.2 with
          | c2 :: r2 =>
            if c2 = sep then
              let p3 := digitRun r2
              if (p3.1.length = 1 ∨ p3.1.length = 2) ∧ p3.2 = [] then
                mkValidDate (digitsVal p1.1) (digitsVal p2.1) (digitsVal p3.1)
              else none
            else none
          | [] => none
        else none
      else none
    | [] => none
  else none

/-- `strptime` with pattern `%m/%d/%Y`. -/
def strptimeMDY (l : Chars) : Option Date :=
  let p1 := digitRun l
  if p1.1.length = 1 ∨ p1.1.length = 2 then
    match p1.2 with
    | '/' :: r1 =>
      let p2 := digitRun r1
      if p2.1.length = 1 ∨ p2.1.length = 2 then
        match p2.2 with
        | '/' :: r2 =>
          let p3 := digitRun r2
          if p3.1.length = 4 ∧ p3.2 = [] then
            mkValidDate (digitsVal p3.1) (digitsVal p1.1) (digitsVal p2.1)
          else none
        | _ => none
      else none
    | _ => none
  else none

/-- `strptime` with pattern `%Y年%m月%d日`. -/
def strptimeCJK (l : Chars) : Option Date :=
  let p1 := digitRun l
  if p1.1.length = 4 then
    match p1.2 with
    | '年' :: r1 =>
      let p2 := digitRun r1
      if p2.1.length = 1 ∨ p2.1.length = 2 then
        match p2.2 with
        | '月' :: r2 =>
          let p3 := digitRun r2
          if (p3.1.length = 1 ∨ p3.1.length = 2) ∧ p3.2 = ['日'] then
            mkValidDate (digitsVal p1.1) (digitsVal p2.1) (digitsVal p3.1)
          else none
        | _ => none
      else none
    | _ => none
  else none

def isDateSep (c : Char) : Bool := c = '/' || c = '-'

/-- `\d{1,2}[\/\-]` with regex backtracking: two digits then a separator,
else one digit then a separator. -/
def grabMonthSep (r : Chars) : Option (Nat × Chars) :=
  match grabDigits 2 r with
  | some (ms, c :: rest) =>
    if isDateSep c then some (digitsVal ms, rest)
    else
      match grabDigits 1 r with
      | some (m1, c1 :: rest1) =>
        if isDateSep c1 then some (digitsVal m1, rest1) else none
      | _ => none
  | _ =>
    match grabDigits 1 r with
    | some (m1, c1 :: rest1) =>
      if isDateSep c1 then some (digitsVal m1, rest1) else none
    | _ => none

/-- Trailing `\d{1,2}`, greedy. -/
def grabDayEnd (r : Chars) : Option Nat :=
  match grabDigits 2 r with
  | some (ds, _) => some (digitsVal ds)
  | none =>
    match grabDigits 1 r with
    | some (ds, _) => some (digitsVal ds)
    | none => none

/-- Try `(\d{4})[\/\-](\d{1,2})[\/\-](\d{1,2})` anchored at the head. -/
def regexDateAt (l : Chars) : Option (Nat × Nat × Nat) :=
  match grabDigits 4 l with
  | some (ys, c :: r1) =>
    if isDateSep c then
      match grabMonthSep r1 with
      | some (m, r2) =>
        match grabDayEnd r2 with
        | some d => some (digitsVal ys, m, d)
        | none => none
      | none => none
    else none
  | _ => none

/-- `re.search` for the date pattern: leftmost position that matches. -/
def regexSearchDate : Chars → Option (Nat × Nat × Nat)
  | [] => none
  | c :: rest =>
    match regexDateAt (c :: rest) with
    | some g => some g
    | none => regexSearchDate rest

/-- `datetime.fromisoformat` on the classic `YYYY-MM-DD` layout (the
only layout this code base feeds it after `replace('/', '-')`). -/
def parseIsoDate (l : Chars) : Option Date :=
  match grabDigits 4 l with
  | some (ys, '-' :: r1) =>
    match grabDigits 2 r1 with
    | some (ms, '-' :: r2) =>
      match grabDigits 2 r2 with
      | some (ds, []) => mkValidDate (digitsVal ys) (digitsVal ms) (digitsVal ds)
      | _ => none
    | _ => none
  | _ => none

/-- `_parse_date`: the four `strptime` formats in order, then the regex
search (whose invalid-date failure falls through), then ISO. -/
def parse_date (date_str : String) : Option Date :=
  if date_str = "" then none
  else
    let l := stripChars date_str.data
    match (strptimeYMD '-' l <|> strptimeYMD '/' l <|> strptimeMDY l <|>
           strptimeCJK l) with
    | some d => some d
    | none =>
      match
        (match regexSearchDate l with
         | some g => mkValidDate g.1 g.2.1 g.2.2
         | none => none) with
      | some d => some d
      | none => parseIsoDate (l.map (fun c => if c = '/' then '-' else c))

/-! ## Data model

Timestamps (`created_at` / `updated_at`) are omitted: no claim mentions
them and nothing in the modelled code reads them back. -/

structure UserRec where
  userID : String
  tenantID : String
  username : String
  employee_id : Option String
  role : String
  status : String
deriving DecidableEq, Repr

/-- `EmployeeMapping` row; `mid` is the opaque engine-generated row id. -/
structure MappingRec where
  mid : Nat
  tenantID : String
  sheets_identifier : String
  sheets_name_id : Option String
  employee_sheet_name : Option String
  schedule_def_id : Option String
  userID : Option String
  is_active : Bool
deriving DecidableEq, Repr

structure CacheRow where
  tenant_id : String
  schedule_def_id : String
  user_id : String
  date : Date
  shift_type : String
  shift_value : String
  time_range : String
deriving DecidableEq, Repr

/-- Python truthiness of a nullable string column. -/
def optTruthy : Option String → Bool
  | none => false
  | some s => s ≠ ""

def getUser (users : List UserRec) (uid : String) : Option UserRec :=
  users.find? (fun u => u.userID = uid)

/-- In-place update of the (unique) user row with the given id. -/
def updateUserEmpId (users : List UserRec) (uid e : String) : List UserRec :=
  users.map (fun u => if u.userID = uid then { u with employee_id := some e } else u)

/-- In-place update of the (unique) mapping row with the given id. -/
def replaceByMid (mappings : List MappingRec) (mid : Nat) (mNew : MappingRec) :
    List MappingRec :=
  mappings.map (fun m => if m.mid = mid then mNew else m)

/-- Modelled from the spec: `EmployeeMapping.find_by_sheets_identifier`
lives in `app/models/employee_mapping.py`, which is not part of the
source tree here.  Per §4.6 step 3 of the spec it resolves a sheets
identifier to its (active) mapping for the given schedule. -/
def find_by_sheets_identifier (mappings : List MappingRec) (ident sd : String) :
    Option MappingRec :=
  mappings.find? (fun m =>
    m.sheets_identifier = ident ∧ m.schedule_def_id = some sd ∧ m.is_active)

/-! ## The identifier → user index of `_store_schedule_data`
(lines 899-997).  The Python dict is modelled as an association list in
insertion order; conflict log messages are abstracted to the conflicting
key. -/

abbrev Idx := List (String × String)

def idxLookup (idx : Idx) (k : String) : Option String :=
  (idx.find? (fun p => p.1 = k)).map (fun p => p.2)

def idxInsertIfAbsent (idx : Idx) (k v : String) : Idx :=
  if idxLookup idx k = none then idx ++ [(k, v)] else idx

/-- One `part` iteration of the name/id split loop (lines 951-961);
`part_clean and len >= 2 and [0].isalpha() and [1:].isdigit()` is exactly
`storeIdPattern`. -/
def idxStepPart (uid : String) (acc2 : Idx × List String) (part : Chars) :
    Idx × List String :=
  let pc := upperChars (stripChars part)
  if storeIdPattern pc then
    let k := String.mk pc
    let confl :=
      match idxLookup acc2.1 k with
      | some v => if v ≠ uid then acc2.2 ++ [k] else acc2.2
      | none => acc2.2
    (idxInsertIfAbsent acc2.1 k uid, confl)
  else acc2

/-- One iteration of the `for mapping in employee_mappings` loop
(lines 917-961). -/
def idxStepMapping (acc : Idx × List String) (m : MappingRec) : Idx × List String :=
  match m.userID with
  | none => acc
  | some uid =>
    if uid = "" then acc
    else
      let key := stripS (upperS m.sheets_identifier)
      let confl1 :=
        match idxLookup acc.1 key with
        | some u0 => if u0 ≠ uid then acc.2 ++ [key] else acc.2
        | none => acc.2
      let idx1 := idxInsertIfAbsent acc.1 key uid
      match m.sheets_name_id with
      | none => (idx1, confl1)
      | some snid =>
        if snid = "" then (idx1, confl1)
        else
          let full := stripS snid
          let confl2 :=
            match idxLookup idx1 full with
            | some v => if v ≠ uid then confl1 ++ [full] else confl1
            | none => confl1
          let idx2 := if full ≠ "" then idxInsertIfAbsent idx1 full uid else idx1
          if hasSlash snid.data then
            (splitSlashes snid.data).foldl (idxStepPart uid) (idx2, confl2)
          else (idx2, confl2)

/-- One iteration of the `for user in users_with_employee_id` loop
(lines 969-974); no conflict is recorded here. -/
def idxStepUserEmpId (acc : Idx × List String) (u : UserRec) : Idx × List String :=
  match u.employee_id with
  | none => acc
  | some e =>
    if e = "" then acc
    else (idxInsertIfAbsent acc.1 (upperS e) u.userID, acc.2)

/-- One iteration of the `for user in all_users` loop (lines 979-997);
no conflict is recorded here either. -/
def idxStepUsername (acc : Idx × List String) (u : UserRec) : Idx × List String :=
  if u.username = "" then acc
  else
    let uu := upperS (stripS u.username)
    if u.role ≠ "" ∧ lowerS u.role = "employee" then
      let idx1 := idxInsertIfAbsent acc.1 uu u.userID
      match u.employee_id with
      | some e =>
        if e ≠ "" then
          let eU := upperS (stripS e)
          if eU ≠ uu then (idxInsertIfAbsent idx1 eU u.userID, acc.2)
          else (idx1, acc.2)
        else (idx1, acc.2)
      | none => (idx1, acc.2)
    else if storeIdPattern uu.data then
      (idxInsertIfAbsent acc.1 uu u.userID, acc.2)
    else acc

/-- The full index build of `_store_schedule_data`: linked mappings of
the schedule, then users with an `employee_id`, then usernames. -/
def buildIdentifierIndex (sd : String) (mappings : List MappingRec)
    (users : List UserRec) : Idx × List String :=
  let ems := mappings.filter (fun m => m.schedule_def_id = some sd ∧ m.is_active)
  let uwe := users.filter (fun u => u.employee_id ≠ none ∧ u.status = "active")
  let au := users.filter (fun u => u.status = "active")
  let acc1 := ems.foldl idxStepMapping ([], [])
  let acc2 := uwe.foldl idxStepUserEmpId acc1
  au.foldl idxStepUsername acc2

/-! ### Spec-side candidate stream for the index (refinement target of
claim C8): the ordered list of `(key, user id)` pairs the sources offer,
in source order.  "First-seen wins" says the built index maps every key
to its first candidate. -/

def candPart (uid : String) (part : Chars) : List (String × String) :=
  let pc := upperChars (stripChars part)
  if storeIdPattern pc then [(String.mk pc, uid)] else []

def candMapping (m : MappingRec) : List (String × String) :=
  match m.userID with
  | none => []
  | some uid =>
    if uid = "" then []
    else
      let key := stripS (upperS m.sheets_identifier)
      (key, uid) ::
        (match m.sheets_name_id with
         | none => []
         | some snid =>
           if snid = "" then []
           else
             let full := stripS snid
             (if full ≠ "" then [(full, uid)] else []) ++
               (if hasSlash snid.data then
                  ((splitSlashes snid.data).map (candPart uid)).flatten
                else []))

def candUserEmpId (u : UserRec) : List (String × String) :=
  match u.employee_id with
  | none => []
  | some e => if e = "" then [] else [(upperS e, u.userID)]

def candUsername (u : UserRec) : List (String × String) :=
  if u.username = "" then []
  else
    let uu := upperS (stripS u.username)
    if u.role ≠ "" ∧ lowerS u.role = "employee" then
      (uu, u.userID) ::
        (match u.employee_id with
         | some e =>
           if e ≠ "" then
             let eU := upperS (stripS e)
             if eU ≠ uu then [(eU, u.userID)] else []
           else []
         | none => [])
    else if storeIdPattern uu.data then [(uu, u.userID)]
    else []

def indexCandidates (sd : String) (mappings : List MappingRec)
    (users : List UserRec) : List (String × String) :=
  ((mappings.filter (fun m => m.schedule_def_id = some sd ∧ m.is_active)).map
      candMapping).flatten ++
    ((users.filter (fun u => u.employee_id ≠ none ∧ u.status = "active")).map
        candUserEmpId).flatten ++
    ((users.filter (fun u => u.status = "active")).map candUsername).flatten

/-! ## User resolution (strategies 1-4 of `_store_schedule_data`,
lines 1102-1174) -/

def charsEndsWith (suffix l : Chars) : Bool :=
  charsIsPrefix suffix.reverse l.reverse

/-- Strategies 1-3: exact employee-id key, full identifier key, then the
scan over index keys for an exact or `.../<id>` match. -/
def resolveS123 (idx : Idx) (identifier_upper : String) (empId : Option String) :
    Option String :=
  match empId.bind (fun e => idxLookup idx e) with
  | some u => some u
  | none =>
    match idxLookup idx identifier_upper with
    | some u => some u
    | none =>
      match empId with
      | none => none
      | some e =>
        (idx.find? (fun kv =>
          let k := upperS (stripS kv.1)
          k = e ∨ (hasSlash k.data ∧ charsEndsWith ("/" ++ e).data k.data))).map
          (fun kv => kv.2)

/-- Strategy 4: the direct `User` lookup by username. -/
def resolveS4 (users : List UserRec) (e : String) : Option UserRec :=
  users.find? (fun u =>
    (u.username = e ∨ upperS u.username = upperS e) ∧ u.status = "active")

/-! ## The schedule cache writer `_store_schedule_data` (lines 861-1499)

A sheet row is an association list from column name to cell value;
`none` models a Python `None` cell. -/

abbrev Row := List (String × Option String)

/-- Python `row.get(col, '')`: a missing column reads as `''`. -/
def rowGet (row : Row) (col : String) : Option String :=
  match row.find? (fun p => p.1 = col) with
  | none => some ""
  | some p => p.2

/-- The identifier-column search (lines 1006-1039): exact Chinese header,
then a substring match, then the English fallback candidates. -/
def findIdentifierColumn (cols : List String) : Option String :=
  match cols.find? (fun col =>
      stripS col = "員工(姓名/ID)" ∨ stripS col = "員工姓名/ID") with
  | some c => some c
  | none =>
    match cols.find? (fun col =>
        let cs := stripS col
        strIsSub "員工" cs ∧ (strIsSub "ID" cs ∨ strIsSub "id" cs ∨ strIsSub "姓名" cs)) with
    | some c => some c
    | none =>
      ["員工", "username", "employee_id", "name", "employee"].find?
        (fun c => cols.contains c)

/-- Modelled from the spec: `CachedSchedule.clear_user_schedule` lives in
`app/models/cached_schedule.py`, which is not part of the source tree
here.  Per §4.6 step 4 of the spec it deletes every cached row for
`(user, schedule)`. -/
def clear_user_schedule (cache : List CacheRow) (uid sd : String) : List CacheRow :=
  cache.filter (fun r => ¬(r.user_id = uid ∧ r.schedule_def_id = sd))

/-- Modelled from the spec: `db.session.merge` upserts a `CachedSchedule`
against its unique `(user, schedule, date)` key (§3): the first row with
the same key is replaced in place, otherwise the row is appended. -/
def mergeCacheRow : List CacheRow → CacheRow → List CacheRow
  | [], row => [row]
  | r :: rest, row =>
    if r.user_id = row.user_id ∧ r.schedule_def_id = row.schedule_def_id ∧
        r.date = row.date then
      row :: rest
    else r :: mergeCacheRow rest row

/-- The per-date-cell shift fields (lines 1292-1317):
`(shift_type, shift_value, time_range)`. -/
def cellEntry (cell : Option String) : String × String × String :=
  match cell with
  | none => ("OFF", "OFF", "休假")
  | some raw =>
    let r := stripS raw
    if r = "" ∨ upperS r = "NULL" ∨ upperS r = "NONE" then ("OFF", "OFF", "休假")
    else (normalize_shift_type r, r, get_time_range (normalize_shift_type r))

/-- One date-column write of a resolved row (lines 1283-1403): skip the
column if its header does not parse as a date or the user's tenant
differs from the schedule's, else merge one cache row. -/
def writeColStep (sd tid : String) (row : Row) (uid utenant : String)
    (c : List CacheRow) (col : String) : List CacheRow :=
  match parse_date col with
  | none => c
  | some dateObj =>
    if utenant ≠ tid then c
    else
      let e := cellEntry (rowGet row col)
      mergeCacheRow c ⟨tid, sd, uid, dateObj, e.1, e.2.1, e.2.2⟩

/-- Clear-then-rewrite of one resolved row's cache entries
(lines 1272-1403): clear `(user, schedule)`, then one merge per date
column that parses. -/
def writeRowCache (sd tid identCol : String) (cols : List String) (row : Row)
    (uid utenant : String) (cache : List CacheRow) : List CacheRow :=
  let date_columns := cols.filter (fun c => c ≠ identCol)
  let cache1 := clear_user_schedule cache uid sd
  date_columns.foldl (writeColStep sd tid row uid utenant) cache1

structure StoreState where
  mappings : List MappingRec
  users : List UserRec
  cache : List CacheRow
deriving Repr

/-- Fresh engine-generated mapping id. -/
def freshMid (mappings : List MappingRec) : Nat :=
  (mappings.map (fun m => m.mid)).foldl max 0 + 1

/-- Lines 1232-1414: processing of a row once a user id has been
resolved — refresh `user.employee_id`, re-verify the user exists and is
active (skipping the row entirely otherwise, before any clearing), then
clear and rewrite the user's cache entries. -/
def storeResolvedRow (sd tid identCol : String) (cols : List String) (row : Row)
    (empId? : Option String) (uid : String) (st : StoreState) : StoreState :=
  let st1 :=
    match getUser st.users uid, empId? with
    | some uobj, some e =>
      if ¬ optTruthy uobj.employee_id ∨ upperS (uobj.employee_id.getD "") ≠ e then
        { st with users := updateUserEmpId st.users uid e }
      else st
    | _, _ => st
  match getUser st1.users uid with
  | none => st1
  | some uobj =>
    if uobj.status ≠ "active" then st1
    else
      let st2 :=
        match empId?, uobj.employee_id with
        | some e, some ueid =>
          if ueid ≠ "" ∧ upperS ueid ≠ upperS e then
            { st1 with users := updateUserEmpId st1.users uid e }
          else st1
        | _, _ => st1
      { st2 with cache := writeRowCache sd tid identCol cols row uid uobj.tenantID st2.cache }

/-- Lines 1176-1230: a row whose identifier resolved to no user — the
cache write is skipped; if an employee id was parsed (and the schedule
has a tenant), an unlinked `EmployeeMapping` is created or refreshed. -/
def storeUnresolvedRow (sd tid : String) (identifier_str : String)
    (empId? name? : Option String) (st : StoreState) : StoreState :=
  match empId? with
  | none => st
  | some e =>
    if tid = "" then st
    else
      match find_by_sheets_identifier st.mappings e sd with
      | some m =>
        let m1 :=
          if ¬ optTruthy m.sheets_name_id ∨ m.sheets_name_id ≠ some identifier_str then
            { m with sheets_name_id := some identifier_str }
          else m
        let m2 :=
          match name? with
          | some nm =>
            if nm ≠ "" ∧ m1.employee_sheet_name ≠ some nm then
              { m1 with employee_sheet_name := some nm }
            else m1
          | none => m1
        { st with mappings := replaceByMid st.mappings m.mid m2 }
      | none =>
        { st with
          mappings := st.mappings ++
            [⟨freshMid st.mappings, tid, e, some identifier_str, name?,
              some sd, none, true⟩] }

/-- One iteration of the `for row_idx, row in enumerate(output_data)`
loop of `_store_schedule_data` (lines 1048-1429). -/
def storeStep (sd tid : String) (idx : Idx) (identCol : String)
    (cols : List String) (st : StoreState) (row : Row) : StoreState :=
  match rowGet row identCol with
  | none => st
  | some identRaw =>
    if identRaw = "" then st
    else
      let identifier_str := stripS identRaw
      let identifier_upper := upperS identifier_str
      let parsed := storeParseIdentifierL identRaw.data
      let empId? : Option String := parsed.1.map String.mk
      let name? : Option String := parsed.2.map String.mk
      match resolveS123 idx identifier_upper empId? with
      | some uid => storeResolvedRow sd tid identCol cols row empId? uid st
      | none =>
        match empId? with
        | none => storeUnresolvedRow sd tid identifier_str empId? name? st
        | some e =>
          match resolveS4 st.users e with
          | some du =>
            -- Strategy 4 side effects (lines 1160-1174): auto-link the
            -- mapping and backfill the user's employee_id
            let st4a :=
              match find_by_sheets_identifier st.mappings e sd with
              | some m =>
                if ¬ optTruthy m.userID then
                  { st with
                    mappings := replaceByMid st.mappings m.mid
                      { m with userID := some du.userID, tenantID := du.tenantID } }
                else st
              | none => st
            let st4 :=
              if ¬ optTruthy du.employee_id ∨ upperS (du.employee_id.getD "") ≠ e then
                { st4a with users := updateUserEmpId st4a.users du.userID e }
              else st4a
            storeResolvedRow sd tid identCol cols row empId? du.userID st4
          | none => storeUnresolvedRow sd tid identifier_str empId? name? st

/-- `_store_schedule_data` over an already-located `final_output` sheet
(`cols`, `rows`): build the identifier index from the initial state, find
the identifier column, then fold over the data rows.  `tid` is the
schedule definition's tenant. -/
def runStore (sd tid : String) (cols : List String) (rows : List Row)
    (mappings : List MappingRec) (users : List UserRec)
    (cache : List CacheRow) : StoreState :=
  match findIdentifierColumn cols with
  | none => ⟨mappings, users, cache⟩
  | some identCol =>
    let idx := (buildIdentifierIndex sd mappings users).1
    rows.foldl (storeStep sd tid idx identCol cols) ⟨mappings, users, cache⟩

/-! ## The fetch retrier `_fetch_with_retry` (lines 181-272)

Only the result channel of the reader is modelled (a reader returning a
`success`/`error` dictionary); `reader n` is the result of the `n`-th
call.  The returned triple is `(result, number of reader calls, the
delays slept in order)`. -/

structure FetchResult where
  success : Bool
  error : String
deriving DecidableEq, Repr

/-- Rate-limit signature check (line 242). -/
def isRateLimitError (e : String) : Bool :=
  strIsSub "429" e || strIsSub "quota" (lowerS e) || strIsSub "rate limit" (lowerS e)

def fetchFailAfter : FetchResult := ⟨false, "Failed to fetch after retries"⟩

/-- The `for attempt in range(max_retries)` loop; the fuel argument is
the number of remaining iterations (`max_retries - attempt`), which the
`attempt < max_retries - 1` retry guard keeps positive. -/
def fetchGo (reader : Nat → FetchResult) (initial_delay : ℚ) (max_retries : Nat) :
    Nat → Nat → FetchResult × Nat × List ℚ
  | _, 0 => (fetchFailAfter, 0, [])
  | attempt, fuel + 1 =>
    let r := reader attempt
    if r.success then (r, 1, [])
    else if isRateLimitError r.error then
      if attempt < max_retries - 1 then
        let res := fetchGo reader initial_delay max_retries (attempt + 1) fuel
        (res.1, res.2.1 + 1, (initial_delay * 2 ^ attempt) :: res.2.2)
      else (r, 1, [])
    else (r, 1, [])

def fetchWithRetry (reader : Nat → FetchResult) (max_retries : Nat)
    (initial_delay : ℚ) : FetchResult × Nat × List ℚ :=
  fetchGo reader initial_delay max_retries 0 max_retries

/-! ## The freshness gate of `sync_schedule_data` (lines 67-85)

`should_sync` abstracts `SyncLog.should_sync(..., min_minutes=n)`; the
gate's decision is whether the external fetch proceeds. -/

inductive GateDecision
  | skipFresh
  | fetch
deriving DecidableEq, Repr

def syncFreshnessGate (sync_type : String) (force : Bool)
    (should_sync : Nat → Bool) : GateDecision :=
  if force = false ∧ sync_type ≠ "on_demand" then
    let min_threshold := if sync_type = "auto" then 5 else 10
    if should_sync min_threshold = false then GateDecision.skipFresh
    else GateDecision.fetch
  else GateDecision.fetch

/-! ## The employee reconciler `_sync_employee_mappings` (lines 274-739)

The reconciler is modelled over the employee sheet's name/ID column
values (`cells`).  The sheet/column location logic (lines 295-435) only
selects a sheet that contains the exact `員工(姓名/ID)` column, so the
exact-match search always finds `emp_name_id_column` and the dedicated
id/name column fallbacks (lines 390-421, 485-516) are unreachable; they
are therefore not modelled.  Counters, logging and commits are omitted. -/

structure ReconState where
  mappings : List MappingRec
  users : List UserRec
deriving Repr

def insertSeen (seen : List String) (code : String) : List String :=
  if seen.contains code then seen else seen ++ [code]

/-- Refresh of an existing mapping row hit by a roster row
(lines 613-655): adopt the schedule if unset, auto-link an unlinked
mapping to the matched user, refresh the raw identifier and display
name, and (re)activate. -/
def refreshMapping (sd : String) (emp_name : Option String)
    (emp_name_id : String) (linked : Option UserRec) (m : MappingRec) :
    MappingRec :=
  let m1 := if m.schedule_def_id = none then { m with schedule_def_id := some sd } else m
  let m2 :=
    match linked with
    | some lu =>
      if ¬ optTruthy m1.userID then { m1 with userID := some lu.userID } else m1
    | none => m1
  let m3 :=
    if emp_name_id ≠ "" ∧ m2.sheets_name_id ≠ some emp_name_id then
      { m2 with sheets_name_id := some emp_name_id }
    else m2
  let m4 :=
    match emp_name with
    | some nm =>
      if nm ≠ "" ∧ m3.employee_sheet_name ≠ some nm then
        { m3 with employee_sheet_name := some nm }
      else m3
    | none => m3
  if m4.is_active = false then { m4 with is_active := true } else m4

/-- Mapping upsert of one parsed roster row (lines 551-660). -/
def reconMappingPart (sd tid empId : String) (emp_name : Option String)
    (emp_name_id : String) (linked : Option UserRec) (st : ReconState) :
    ReconState :=
  let exact := st.mappings.find? (fun m =>
    m.sheets_identifier = empId ∧ m.schedule_def_id = some sd ∧ m.is_active)
  let existing :=
    match exact with
    | some m => some m
    | none => st.mappings.find? (fun m =>
        m.sheets_identifier = empId ∧ m.tenantID = tid ∧ m.is_active)
  match existing with
  | some m =>
    if m.schedule_def_id = some sd ∨ m.schedule_def_id = none then
      { st with mappings := (replaceByMid st.mappings m.mid
          (refreshMapping sd emp_name emp_name_id linked m)) }
    else if m.userID = none then
      -- mapping belongs to another schedule: create a fresh unlinked one
      { st with
        mappings := st.mappings ++
          [⟨freshMid st.mappings, tid, empId, some emp_name_id, emp_name,
            some sd, none, true⟩] }
    else st
  | none =>
    { st with
      mappings := st.mappings ++
        [⟨freshMid st.mappings, tid, empId, some emp_name_id, emp_name,
          some sd, linked.map (fun u => u.userID), true⟩] }

/-- One iteration of the roster-row loop (lines 439-660). -/
def reconStep (sd tid : String) (acc : ReconState × List String) (cell : String) :
    ReconState × List String :=
  match syncParseIdentifier cell with
  | none => acc
  | some p =>
    let empId := String.mk p.emp_id
    let emp_name : Option String := p.emp_name.map String.mk
    let emp_name_id := String.mk p.emp_name_id
    let seen := insertSeen acc.2 (upperS empId)
    let st := acc.1
    -- direct user match (lines 527-549), with the employee_id backfill
    let byEmp := st.users.find? (fun u =>
      u.employee_id = some empId ∧ u.status = "active")
    match byEmp with
    | some lu => (reconMappingPart sd tid empId emp_name emp_name_id (some lu) st, seen)
    | none =>
      match st.users.find? (fun u => u.username = empId ∧ u.status = "active") with
      | some lu =>
        let st' :=
          if ¬ optTruthy lu.employee_id then
            { st with users := updateUserEmpId st.users lu.userID empId }
          else st
        (reconMappingPart sd tid empId emp_name emp_name_id (some lu) st', seen)
      | none => (reconMappingPart sd tid empId emp_name emp_name_id none st, seen)

/-- Codes collected into `employees_in_sheet` by the roster pass. -/
def parsedSheetCodes (cells : List String) : List String :=
  cells.foldl (fun seen cell =>
    match syncParseIdentifier cell with
    | none => seen
    | some p => insertSeen seen (upperS (String.mk p.emp_id))) []

/-- Deactivation of one mapping after the row pass (lines 662-681):
an active mapping of this schedule whose code never occurred in the
sheet is soft-deleted. -/
def deactivateMissing (sd : String) (seen : List String) (m : MappingRec) :
    MappingRec :=
  if m.schedule_def_id = some sd ∧ m.is_active ∧
      ¬ seen.contains (upperS m.sheets_identifier) then
    { m with is_active := false }
  else m

/-- `_sync_employee_mappings` over the located roster column: the row
pass, then the deactivation of active mappings of this schedule whose
code did not occur in the sheet (lines 662-681). -/
def reconcile (sd tid : String) (cells : List String) (st : ReconState) :
    ReconState :=
  let r := cells.foldl (reconStep sd tid) (st, [])
  let st1 := r.1
  let seen := r.2
  { st1 with mappings := st1.mappings.map (deactivateMissing sd seen) }

/-! ## Derived views used by the verification

These are not translations of further source code; they are projections
and pure re-statements of the folds above, related to them by proved
lemmas. -/

/-- The user fields that `_store_schedule_data` reads during a pass
(`userID`, `username`, `status`, `tenantID`); the pass itself only ever
writes `employee_id`. -/
abbrev UProj := List (String × String × String × String)

def usersProj (users : List UserRec) : UProj :=
  users.map (fun u => (u.userID, u.username, u.status, u.tenantID))

def resolveS4P (proj : UProj) (e : String) : Option (String × String) :=
  (proj.find? (fun p => (p.2.1 = e ∨ upperS p.2.1 = upperS e) ∧ p.2.2.1 = "active")).map
    (fun p => (p.1, p.2.2.2))

def projGet (proj : UProj) (uid : String) : Option (String × String × String × String) :=
  proj.find? (fun p => p.1 = uid)

/-- The cache-relevant outcome of one writer row: `some (uid, tenant)`
when the row reaches the clear-and-rewrite stage for user `uid`. -/
def rowOutcomeP (idx : Idx) (identCol : String) (proj : UProj) (row : Row) :
    Option (String × String) :=
  match rowGet row identCol with
  | none => none
  | some identRaw =>
    if identRaw = "" then none
    else
      let identifier_upper := upperS (stripS identRaw)
      let empId? := (storeParseIdentifierL identRaw.data).1.map String.mk
      let uid? :=
        match resolveS123 idx identifier_upper empId? with
        | some u => some u
        | none =>
          match empId? with
          | some e => (resolveS4P proj e).map (fun p => p.1)
          | none => none
      match uid? with
      | none => none
      | some uid =>
        match projGet proj uid with
        | none => none
        | some p => if p.2.2.1 ≠ "active" then none else some (uid, p.2.2.2)

/-- Pure cache transformer of one writer row. -/
def gStep (sd tid : String) (idx : Idx) (identCol : String) (cols : List String)
    (proj : UProj) (cache : List CacheRow) (row : Row) : List CacheRow :=
  match rowOutcomeP idx identCol proj row with
  | none => cache
  | some p => writeRowCache sd tid identCol cols row p.1 p.2 cache

/-- The rows one resolved writer row contributes on its own. -/
def rowBlock (sd tid identCol : String) (cols : List String) (row : Row)
    (uid ut : String) : List CacheRow :=
  writeRowCache sd tid identCol cols row uid ut []

/-- The users cleared-and-rewritten by a writer pass. -/
def touchedUsers (idx : Idx) (identCol : String) (proj : UProj) :
    List Row → List String
  | [] => []
  | row :: rest =>
    match rowOutcomeP idx identCol proj row with
    | none => touchedUsers idx identCol proj rest
    | some p => p.1 :: touchedUsers idx identCol proj rest

def findCacheRow (cache : List CacheRow) (uid sd : String) (d : Date) :
    Option CacheRow :=
  cache.find? (fun r => r.user_id = uid ∧ r.schedule_def_id = sd ∧ r.date = d)

/-- Codes of the active mappings attached to a schedule, uppercased. -/
def activeCodesFor (sd : String) (mappings : List MappingRec) : List String :=
  (mappings.filter (fun m => m.is_active ∧ m.schedule_def_id = some sd)).map
    (fun m => upperS m.sheets_identifier)

/-- Row-pass tracking relation: every mapping of the initial state is
still present (same id, same code), never deactivated, and never moved
off this schedule while active. -/
def MapsPreserved (sd : String) (before after : List MappingRec) : Prop :=
  ∀ m ∈ before, ∃ m' ∈ after, m'.mid = m.mid ∧
    m'.sheets_identifier = m.sheets_identifier ∧
    (m.is_active = true → m'.is_active = true) ∧
    (m.is_active = true → m.schedule_def_id = some sd →
      m'.schedule_def_id = some sd)

/-- Invariant carried through the reconciler's row pass: every seen code
has an active mapping for this schedule; every active linked mapping of
the tenant sits on this schedule (or on none); mapping ids are distinct. -/
def ReconInv (sd tid : String) (ms : List MappingRec) (seen : List String) : Prop :=
  (∀ code ∈ seen, ∃ m ∈ ms, m.is_active = true ∧ m.schedule_def_id = some sd ∧
      upperS m.sheets_identifier = code) ∧
    (∀ m ∈ ms, m.is_active = true → m.tenantID = tid → m.userID ≠ none →
      (m.schedule_def_id = some sd ∨ m.schedule_def_id = none)) ∧
    (ms.map (fun m => m.mid)).Nodup

/-! # Theorems -/

/-! ## C3: the freshness gate -/

/-- **C3**: the external fetch proceeds exactly when `sync_type` is
`on_demand`, or `force` is set, or `SyncLog.should_sync` approves at the
threshold of 5 minutes for `auto` syncs and 10 minutes for every other
gated type; in particular the gate is bypassed (the fetch proceeds no
matter what `should_sync` says) precisely for `on_demand` or forced
syncs. -/
theorem freshness_gate_policy (sync_type : String) (force : Bool)
    (should_sync : Nat → Bool) :
    syncFreshnessGate sync_type force should_sync = GateDecision.fetch ↔
      (sync_type = "on_demand" ∨ force = true ∨
        should_sync (if sync_type = "auto" then 5 else 10) = true) := by
  simp only [syncFreshnessGate]
  by_cases h1 : force = false ∧ sync_type ≠ "on_demand"
  · rw [if_pos h1]
    by_cases h2 : should_sync (if sync_type = "auto" then 5 else 10) = false
    · rw [if_pos h2]
      constructor
      · intro h; cases h
      · rintro (h | h | h)
        · exact absurd h h1.2
        · rw [h1.1] at h; cases h
        · rw [h2] at h; cases h
    · rw [if_neg h2]
      simp only [Bool.not_eq_false] at h2
      exact ⟨fun _ => Or.inr (Or.inr h2), fun _ => rfl⟩
  · rw [if_neg h1]
    constructor
    · intro _
      rcases Bool.eq_false_or_eq_true force with hf | hf
      · exact Or.inr (Or.inl hf)
      · left
        by_contra hod
        exact h1 ⟨hf, hod⟩
    · intro _; rfl

/-! ## C4: the fetch retrier -/

theorem fetchGo_allRL (reader : Nat → FetchResult) (d : ℚ) (m : Nat)
    (h : ∀ i, i < m → (reader i).success = false ∧
      isRateLimitError (reader i).error = true) :
    ∀ fuel j, 0 < fuel → j + fuel = m →
      fetchGo reader d m j fuel =
        (reader (m - 1), fuel, (List.range' j (fuel - 1)).map (fun i => d * 2 ^ i)) := by
  intro fuel
  induction fuel with
  | zero => intro j h0; omega
  | succ f ih =>
    intro j _ hjm
    have hj : j < m := by omega
    obtain ⟨hs, hr⟩ := h j hj
    simp only [fetchGo, hs, hr, Bool.false_eq_true, if_false, if_true]
    match f, ih with
    | 0, _ =>
      have : ¬ j < m - 1 := by omega
      rw [if_neg this]
      have : j = m - 1 := by omega
      subst this
      rfl
    | f' + 1, ih =>
      have hlt : j < m - 1 := by omega
      rw [if_pos hlt]
      rw [ih (j + 1) (by omega) (by omega)]
      simp [List.range'_succ]

/-- **C4**: a reader whose every result carries a rate-limit signature
(`429` / `quota` / `rate limit`, case-insensitively) is called exactly
`max_retries` times, a sleep of `initial_delay * 2 ^ attempt` precedes
each retry, and the last failure is returned; a reader whose first
result fails without a rate-limit signature is called once and its
failure returned with no sleep. -/
theorem fetch_with_retry_policy (m : Nat) (d : ℚ)
    (rl other : Nat → FetchResult) (hm : 1 ≤ m)
    (hrl : ∀ i, i < m → (rl i).success = false ∧
      isRateLimitError (rl i).error = true)
    (ho : (other 0).success = false)
    (ho2 : isRateLimitError (other 0).error = false) :
    fetchWithRetry rl m d =
        (rl (m - 1), m, (List.range (m - 1)).map (fun i => d * 2 ^ i)) ∧
      fetchWithRetry other m d = (other 0, 1, []) := by
  constructor
  · have := fetchGo_allRL rl d m hrl m 0 (by omega) (by omega)
    rw [fetchWithRetry, this, List.range_eq_range']
  · obtain ⟨k, rfl⟩ : ∃ k, m = k + 1 := ⟨m - 1, by omega⟩
    simp only [fetchWithRetry, fetchGo, ho, ho2, Bool.false_eq_true, if_false]

/-- Witness for C4 at `max_retries = 3`, `initial_delay = 2`. -/
theorem fetch_with_retry_policy_witness :
    fetchWithRetry (fun n => ⟨false, if n = 0 then "HTTP 429" else "Quota"⟩) 3 2 =
        (⟨false, "Quota"⟩, 3, [2, 4]) ∧
      fetchWithRetry (fun _ => ⟨false, "boom"⟩) 3 2 = (⟨false, "boom"⟩, 1, []) := by
  have h := fetch_with_retry_policy 3 2
    (fun n => ⟨false, if n = 0 then "HTTP 429" else "Quota"⟩)
    (fun _ => ⟨false, "boom"⟩) (by omega)
    (by decide) (by decide) (by decide)
  refine ⟨?_, h.2⟩
  rw [h.1]
  norm_num [List.range_succ]

/-! ## Shift-type facts shared by C7 -/

theorem normalize_shift_type_mem (s : String) :
    normalize_shift_type s ∈ ["D", "E", "N", "OFF"] := by
  unfold normalize_shift_type
  by_cases h1 : s = ""
  · rw [if_pos h1]; simp
  · rw [if_neg h1]
    show (if _ then ("OFF" : String) else _) ∈ _
    generalize stripS (upperS s) = su
    split_ifs with h2 h3 h4 h5 h6 h7 <;> try simp
    obtain ⟨h71, h72⟩ := h7
    simp only [List.mem_cons, List.not_mem_nil, or_false] at h72
    tauto

/-! ## String and character lemmas -/

theorem length_dropWhile_le' {p : Char → Bool} (l : Chars) :
    (l.dropWhile p).length ≤ l.length := by
  induction l with
  | nil => simp
  | cons a as ih =>
    rw [List.dropWhile_cons]
    split
    · simp; omega
    · simp

theorem map_eq_self_of {f : Char → Char} {l : Chars}
    (h : ∀ x ∈ l, f x = x) : l.map f = l := by
  induction l with
  | nil => rfl
  | cons a as ih =>
    simp only [List.map_cons, h a (List.mem_cons_self a as),
      ih (fun x hx => h x (List.mem_cons_of_mem a hx))]

theorem dropWhile_eq_self_of_head {p : Char → Bool} {l : Chars}
    (h : ∀ c ∈ l.head?, p c = false) : l.dropWhile p = l := by
  cases l with
  | nil => rfl
  | cons c cs =>
    rw [List.dropWhile_cons, if_neg]
    simp [h c rfl]

theorem head_false_of_dropWhile_eq_self {p : Char → Bool} {l : Chars}
    (h : l.dropWhile p = l) : ∀ c ∈ l.head?, p c = false := by
  cases l with
  | nil => intro c hc; cases hc
  | cons a as =>
    intro c hc
    have hac : a = c := by simpa using hc
    subst hac
    by_contra hp
    rw [Bool.not_eq_false] at hp
    rw [List.dropWhile_cons, if_pos hp] at h
    have h1 : (List.dropWhile p as).length ≤ as.length := length_dropWhile_le' as
    have h2 := congrArg List.length h
    simp only [List.length_cons] at h2
    omega

theorem stripChars_eq_self {l : Chars}
    (hf : l.dropWhile pyIsSpace = l)
    (hb : l.reverse.dropWhile pyIsSpace = l.reverse) :
    stripChars l = l := by
  unfold stripChars
  rw [hf, hb, List.reverse_reverse]

theorem pyToUpper_fixed {c : Char} (h : c.toNat < 97 ∨ 122 < c.toNat) :
    pyToUpper c = c := by
  unfold pyToUpper
  rw [if_neg]
  omega

theorem code_char_props {c : Char}
    (h : (65 ≤ c.toNat ∧ c.toNat ≤ 90) ∨ pyIsDigit c = true) :
    pyIsSpace c = false ∧ pyToUpper c = c ∧ unicodeCatC c = false ∧
      c ≠ '/' ∧ pyIsAlnum c = true := by
  have hn : (65 ≤ c.toNat ∧ c.toNat ≤ 90) ∨ (48 ≤ c.toNat ∧ c.toNat ≤ 57) ∨
      (0xFF10 ≤ c.toNat ∧ c.toNat ≤ 0xFF19) := by
    rcases h with h | h
    · exact Or.inl h
    · simp only [pyIsDigit, Bool.or_eq_true, Bool.and_eq_true,
        decide_eq_true_eq] at h
      tauto
  refine ⟨?_, ?_, ?_, ?_, ?_⟩
  · simp only [pyIsSpace, Bool.or_eq_false_iff, decide_eq_false_iff_not]
    omega
  · exact pyToUpper_fixed (by omega)
  · simp only [unicodeCatC, Bool.or_eq_false_iff, decide_eq_false_iff_not,
      Bool.and_eq_false_iff]
    omega
  · intro e
    have : c.toNat = 47 := by rw [e]; rfl
    omega
  · simp only [pyIsAlnum, pyIsAlpha, pyIsDigit, Bool.or_eq_true,
      Bool.and_eq_true, decide_eq_true_eq]
    omega

theorem matchCodePattern_props {code : Chars} (h : matchCodePattern code = true) :
    code ≠ [] ∧ upperChars code = code ∧ stripChars code = code ∧
      (∀ c ∈ code, pyIsSpace c = false ∧ unicodeCatC c = false ∧ c ≠ '/' ∧
        pyIsAlnum c = true) ∧
      storeIdPattern code = true := by
  match code with
  | [] => cases h
  | c :: rest =>
    simp only [matchCodePattern, Bool.and_eq_true, Bool.or_eq_true,
      decide_eq_true_eq, List.all_eq_true] at h
    obtain ⟨⟨hc, hlen⟩, hdig⟩ := h
    have hcprops := code_char_props (c := c) (Or.inl hc)
    have hrest : ∀ x ∈ rest, pyIsSpace x = false ∧ pyToUpper x = x ∧
        unicodeCatC x = false ∧ x ≠ '/' ∧ pyIsAlnum x = true := by
      intro x hx
      exact code_char_props (Or.inr (hdig x hx))
    have hrest_ne : rest ≠ [] := by
      intro e
      subst e
      simp at hlen
    have hall : ∀ x ∈ c :: rest, pyIsSpace x = false ∧ pyToUpper x = x ∧
        unicodeCatC x = false ∧ x ≠ '/' ∧ pyIsAlnum x = true := by
      intro x hx
      rcases List.mem_cons.mp hx with h1 | h1
      · subst h1; exact hcprops
      · exact hrest x h1
    refine ⟨by simp, ?_, ?_, ?_, ?_⟩
    · exact map_eq_self_of (fun x hx => (hall x hx).2.1)
    · apply stripChars_eq_self
      · exact dropWhile_eq_self_of_head (fun x hx => (hall x (by
          have hxc : c = x := by simpa using hx
          exact hxc ▸ List.mem_cons_self c rest)).1)
      · apply dropWhile_eq_self_of_head
        intro x hx
        rw [List.head?_reverse] at hx
        exact (hall x (List.mem_of_mem_getLast? hx)).1
    · intro x hx
      exact ⟨(hall x hx).1, (hall x hx).2.2.1, (hall x hx).2.2.2.1,
        (hall x hx).2.2.2.2⟩
    · simp only [storeIdPattern, Bool.and_eq_true, List.all_eq_true]
      refine ⟨⟨?_, ?_⟩, hdig⟩
      · simp only [pyIsAlpha, Bool.or_eq_true, Bool.and_eq_true, decide_eq_true_eq]
        omega
      · simpa using hrest_ne

theorem hasSlash_iff {l : Chars} : hasSlash l = true ↔ '/' ∈ l := by
  unfold hasSlash
  exact List.elem_iff

theorem hasSlash_eq_false {l : Chars} : hasSlash l = false ↔ '/' ∉ l := by
  rw [← hasSlash_iff]
  cases hasSlash l <;> simp

theorem splitOnFirstSlash_append {name : Chars} (code : Chars) (h : '/' ∉ name) :
    splitOnFirstSlash (name ++ '/' :: code) = (name, code) := by
  induction name with
  | nil => simp [splitOnFirstSlash]
  | cons a as ih =>
    have ha : ¬ a = '/' := fun e => h (e ▸ List.mem_cons_self a as)
    have ihs := ih (fun hm => h (List.mem_cons_of_mem a hm))
    simp only [List.cons_append, splitOnFirstSlash, if_neg ha, List.append_eq, ihs]

theorem splitSlashes_ne_nil (l : Chars) : splitSlashes l ≠ [] := by
  induction l with
  | nil => simp [splitSlashes]
  | cons c cs ih =>
    simp only [splitSlashes]
    cases hsp : splitSlashes cs with
    | nil => exact absurd hsp ih
    | cons a t =>
      by_cases hc : c = '/' <;> simp [hc]

theorem splitSlashes_no_slash {l : Chars} (h : '/' ∉ l) : splitSlashes l = [l] := by
  induction l with
  | nil => rfl
  | cons c cs ih =>
    have hc : ¬ c = '/' := fun e => h (e ▸ List.mem_cons_self c cs)
    have ihs := ih (fun hm => h (List.mem_cons_of_mem c hm))
    simp only [splitSlashes, ihs, if_neg hc]

theorem splitSlashes_append {a : Chars} (b : Chars) (h : '/' ∉ a) :
    splitSlashes (a ++ '/' :: b) = a :: splitSlashes b := by
  induction a with
  | nil =>
    simp only [List.nil_append, splitSlashes]
    cases hsp : splitSlashes b with
    | nil => exact absurd hsp (splitSlashes_ne_nil b)
    | cons x t => simp
  | cons c cs ih =>
    have hc : ¬ c = '/' := fun e => h (e ▸ List.mem_cons_self c cs)
    have ihs := ih (fun hm => h (List.mem_cons_of_mem c hm))
    simp only [List.cons_append, splitSlashes, List.append_eq, ihs, if_neg hc]

/-! ## C1: the two identifier parsers -/

/-- **C1** counterexample: the claim says both parsers split on the LAST
`/` and both use the `[A-Z]\d{2,3}` grammar for bare cells.  In fact
`_sync_employee_mappings` splits on the FIRST `/` (so `"A/B/E01"`, whose
final segment `E01` is a valid code, is rejected by it while
`_store_schedule_data` accepts it), and `_store_schedule_data` accepts
the bare cell `"E1"` which does not match `[A-Z]\d{2,3}`. -/
theorem identifier_parsers_counterexample :
    syncParseIdentifier "A/B/E01" = none ∧
      storeParseIdentifier "A/B/E01" = (some "E01".data, some "A/B".data) ∧
      syncParseIdentifier "E1" = none ∧
      storeParseIdentifier "E1" = (some "E1".data, none) := by decide

/-- **C1** (amended): the Schedule Cache Writer's parser splits on the
last `/` (display name = everything before, code = final segment under
its letter-then-digits shape); the Employee Reconciler's parser splits
on the FIRST `/`, so the two agree exactly on cells whose display name
contains no `/`; and a cell without `/` whose cleaned uppercased text
fails `[A-Z]\d{2,3}` is rejected by the reconciler's parser. -/
theorem identifier_parsers_amended (name code : Chars)
    (hcode : matchCodePattern code = true)
    (hname : ∀ c ∈ name, unicodeCatC c = false ∧ c ≠ '/')
    (hh : name.dropWhile pyIsSpace = name)
    (hl : name.reverse.dropWhile pyIsSpace = name.reverse) :
    syncParseIdentifierL (name ++ '/' :: code) =
        some ⟨code, some name, name ++ '/' :: code⟩ ∧
      storeParseIdentifierL (name ++ '/' :: code) = (some code, some name) ∧
      ∀ cell : Chars, hasSlash (stripChars cell) = false →
        matchCodePattern (upperChars (stripChars cell)) = false →
        syncParseIdentifierL cell = none := by
  obtain ⟨hne, hupper, hstripc, hchars, hstore⟩ := matchCodePattern_props hcode
  have hslashname : '/' ∉ name := fun hm => (hname _ hm).2 rfl
  have hslashcode : '/' ∉ code := fun hm => (hchars _ hm).2.2.1 rfl
  have hnamestrip : stripChars name = name := stripChars_eq_self hh hl
  have hrev : (name ++ '/' :: code).reverse = code.reverse ++ '/' :: name.reverse := by
    rw [List.reverse_append, List.reverse_cons, List.append_assoc]
    simp
  have hwhole : stripChars (name ++ '/' :: code) = name ++ '/' :: code := by
    apply stripChars_eq_self
    · apply dropWhile_eq_self_of_head
      intro x hx
      cases name with
      | nil =>
        have : '/' = x := by simpa using hx
        subst this
        decide
      | cons a as =>
        have hax : a = x := by simpa using hx
        subst hax
        exact head_false_of_dropWhile_eq_self hh a rfl
    · rw [hrev]
      apply dropWhile_eq_self_of_head
      intro x hx
      obtain ⟨y, t, hyt⟩ := List.exists_cons_of_ne_nil
        (show code.reverse ≠ [] by simpa using hne)
      rw [hyt] at hx
      have hyx : y = x := by simpa using hx
      subst hyx
      have hy : y ∈ code := by
        rw [← List.mem_reverse, hyt]
        exact List.mem_cons_self y t
      exact (hchars y hy).1
  have hslash_whole : hasSlash (name ++ '/' :: code) = true :=
    hasSlash_iff.mpr (by simp)
  have hempty : (name ++ '/' :: code).isEmpty = false := by
    cases name <;> rfl
  refine ⟨?_, ?_, ?_⟩
  · simp only [syncParseIdentifierL, hempty, Bool.false_eq_true, if_false,
      hwhole, hslash_whole, if_true, splitOnFirstSlash_append code hslashname,
      hnamestrip, hstripc, hupper, hcode]
  · have hkeepNorm : (name ++ '/' :: code).filter
        (fun c => !unicodeCatC c || c = '/' || c = '-' || c = '_') =
        name ++ '/' :: code := by
      apply List.filter_eq_self.mpr
      intro x hx
      rcases List.mem_append.mp hx with h1 | h1
      · simp [(hname x h1).1]
      · rcases List.mem_cons.mp h1 with h2 | h2
        · subst h2; rfl
        · simp [(hchars x h2).2.1]
    have hkeepId : code.filter (fun c => !unicodeCatC c || pyIsAlnum c) = code := by
      apply List.filter_eq_self.mpr
      intro x hx
      simp [(hchars x hx).2.1]
    have hsplit : splitSlashes (name ++ '/' :: code) = [name, code] := by
      rw [splitSlashes_append code hslashname, splitSlashes_no_slash hslashcode]
    simp only [storeParseIdentifierL, hwhole, hkeepNorm, hslash_whole, if_true,
      hsplit, List.dropLast_cons_of_ne_nil, List.dropLast_single,
      List.getLastD_cons, List.getLastD_nil, joinSlashes,
      hnamestrip, hstripc, hupper, hkeepId, hstore]
  · intro cell h1 h2
    simp only [syncParseIdentifierL]
    by_cases hc : cell.isEmpty
    · rw [if_pos hc]
    · rw [if_neg hc, if_neg (by simp [h1]), if_neg (by simp [h2])]

/-- Witness for C1 (amended) at a composite and a bare cell. -/
theorem identifier_parsers_amended_witness :
    syncParseIdentifier "王小明/E01" =
        some ⟨"E01".data, some "王小明".data, "王小明/E01".data⟩ ∧
      storeParseIdentifier "王小明/E01" = (some "E01".data, some "王小明".data) ∧
      syncParseIdentifier "張三" = none := by
  have h := identifier_parsers_amended "王小明".data "E01".data
    (by decide) (by decide) (by decide) (by decide)
  have e : ("王小明/E01").data = "王小明".data ++ '/' :: "E01".data := by decide
  refine ⟨?_, ?_, ?_⟩
  · show syncParseIdentifierL ("王小明/E01").data = _
    rw [e]
    exact h.1
  · show storeParseIdentifierL ("王小明/E01").data = _
    rw [e]
    exact h.2.1
  · exact h.2.2 ("張三").data (by decide) (by decide)

/-! ## C8: the identifier → user index -/

theorem map_or' {f : String × String → String} {o1 o2 : Option (String × String)} :
    (o1.or o2).map f = (o1.map f).or (o2.map f) := by
  cases o1 <;> rfl

theorem idxLookup_append (idx1 idx2 : Idx) (k : String) :
    idxLookup (idx1 ++ idx2) k = (idxLookup idx1 k).or (idxLookup idx2 k) := by
  unfold idxLookup
  rw [List.find?_append]
  exact map_or'

theorem idxLookup_insertIfAbsent (idx : Idx) (kNew v k : String) :
    idxLookup (idxInsertIfAbsent idx kNew v) k =
      (idxLookup idx k).or (if k = kNew then some v else none) := by
  unfold idxInsertIfAbsent
  by_cases h : idxLookup idx kNew = none
  · rw [if_pos h, idxLookup_append]
    congr 1
    unfold idxLookup
    by_cases hk : k = kNew
    · subst hk
      simp [List.find?]
    · have : ¬ (kNew = k) := fun e => hk e.symm
      simp [List.find?, this, hk]
  · rw [if_neg h]
    by_cases hk : k = kNew
    · subst hk
      cases hl : idxLookup idx k with
      | none => exact absurd hl h
      | some u => rfl
    · simp [hk]

theorem idxStepPart_lookup (uid : String) (acc2 : Idx × List String)
    (part : Chars) (k : String) :
    idxLookup (idxStepPart uid acc2 part).1 k =
      (idxLookup acc2.1 k).or
        (((candPart uid part).find? (fun p => p.1 = k)).map (fun p => p.2)) := by
  unfold idxStepPart candPart
  by_cases hp : storeIdPattern (upperChars (stripChars part)) = true
  · rw [if_pos hp, if_pos hp]
    rw [idxLookup_insertIfAbsent]
    congr 1
    by_cases hk : k = String.mk (upperChars (stripChars part))
    · subst hk
      simp [List.find?]
    · have : ¬ (String.mk (upperChars (stripChars part)) = k) := fun e => hk e.symm
      simp [List.find?, this, hk]
  · rw [if_neg hp, if_neg hp]
    simp

theorem foldl_lookup_or {α : Type} (step : (Idx × List String) → α → (Idx × List String))
    (cand : α → List (String × String))
    (hstep : ∀ acc x k, idxLookup (step acc x).1 k =
      (idxLookup acc.1 k).or (((cand x).find? (fun p => p.1 = k)).map (fun p => p.2))) :
    ∀ (xs : List α) (acc : Idx × List String) (k : String),
      idxLookup (xs.foldl step acc).1 k =
        (idxLookup acc.1 k).or
          ((((xs.map cand).flatten).find? (fun p => p.1 = k)).map (fun p => p.2)) := by
  intro xs
  induction xs with
  | nil => intro acc k; simp
  | cons x rest ih =>
    intro acc k
    simp only [List.foldl_cons, List.map_cons, List.flatten_cons]
    rw [ih (step acc x) k, hstep acc x k, List.find?_append, map_or',
      Option.or_assoc]

theorem find?_cons_pair (key uid k : String) (L : List (String × String)) :
    (((key, uid) :: L).find? (fun p => p.1 = k)).map (fun p => p.2) =
      (if k = key then some uid else none).or
        ((L.find? (fun p => p.1 = k)).map (fun p => p.2)) := by
  by_cases hk : key = k
  · subst hk
    simp [List.find?]
  · have hk' : ¬ (k = key) := fun e => hk e.symm
    simp [List.find?, hk, hk']

theorem idxStepMapping_lookup (acc : Idx × List String) (m : MappingRec) (k : String) :
    idxLookup (idxStepMapping acc m).1 k =
      (idxLookup acc.1 k).or
        (((candMapping m).find? (fun p => p.1 = k)).map (fun p => p.2)) := by
  unfold idxStepMapping candMapping
  cases m.userID with
  | none => simp
  | some uid =>
    dsimp only
    by_cases hu : uid = ""
    · rw [if_pos hu, if_pos hu]
      simp
    · rw [if_neg hu, if_neg hu]
      have hkeyB : ∀ idx : Idx,
          idxLookup (idxInsertIfAbsent idx (stripS (upperS m.sheets_identifier)) uid) k =
            (idxLookup idx k).or
              (if k = stripS (upperS m.sheets_identifier) then some uid else none) :=
        fun idx => idxLookup_insertIfAbsent idx _ uid k
      cases m.sheets_name_id with
      | none =>
        dsimp only
        rw [hkeyB acc.1, find?_cons_pair]
        simp
      | some snid =>
        dsimp only
        by_cases hs : snid = ""
        · rw [if_pos hs, if_pos hs, hkeyB acc.1, find?_cons_pair]
          simp
        · rw [if_neg hs, if_neg hs]
          have hC : ∀ idx : Idx,
              idxLookup (if stripS snid ≠ "" then
                  idxInsertIfAbsent idx (stripS snid) uid else idx) k =
                (idxLookup idx k).or
                  (((if stripS snid ≠ "" then [(stripS snid, uid)] else []).find?
                    (fun p => p.1 = k)).map (fun p => p.2)) := by
            intro idx
            by_cases hf : stripS snid ≠ ""
            · rw [if_pos hf, if_pos hf, idxLookup_insertIfAbsent]
              congr 1
              by_cases hk : k = stripS snid
              · subst hk
                simp [List.find?]
              · have hk' : ¬ (stripS snid = k) := fun e => hk e.symm
                simp [List.find?, hk, hk']
            · rw [if_neg hf, if_neg hf]
              simp
          by_cases hsl : hasSlash snid.data = true
          · rw [if_pos hsl, if_pos hsl]
            rw [foldl_lookup_or (idxStepPart uid) (candPart uid)
              (idxStepPart_lookup uid) (splitSlashes snid.data) _ k]
            rw [hC, hkeyB acc.1, find?_cons_pair, List.find?_append, map_or',
              Option.or_assoc, Option.or_assoc]
          · rw [if_neg hsl, if_neg hsl]
            rw [hC, hkeyB acc.1, find?_cons_pair, List.find?_append, map_or',
              Option.or_assoc]
            simp

theorem find?_singleton_pair (k1 v k : String) :
    (([(k1, v)] : List (String × String)).find? (fun p => p.1 = k)).map
        (fun p => p.2) = (if k = k1 then some v else none) := by
  by_cases hk : k1 = k
  · subst hk
    simp [List.find?]
  · have hk' : ¬ (k = k1) := fun e => hk e.symm
    simp [List.find?, hk, hk']

theorem idxStepUserEmpId_lookup (acc : Idx × List String) (u : UserRec) (k : String) :
    idxLookup (idxStepUserEmpId acc u).1 k =
      (idxLookup acc.1 k).or
        (((candUserEmpId u).find? (fun p => p.1 = k)).map (fun p => p.2)) := by
  unfold idxStepUserEmpId candUserEmpId
  cases u.employee_id with
  | none => simp
  | some e =>
    dsimp only
    by_cases he : e = ""
    · rw [if_pos he, if_pos he]
      simp
    · rw [if_neg he, if_neg he, idxLookup_insertIfAbsent, find?_singleton_pair]

theorem idxStepUsername_lookup (acc : Idx × List String) (u : UserRec) (k : String) :
    idxLookup (idxStepUsername acc u).1 k =
      (idxLookup acc.1 k).or
        (((candUsername u).find? (fun p => p.1 = k)).map (fun p => p.2)) := by
  unfold idxStepUsername candUsername
  by_cases hn : u.username = ""
  · rw [if_pos hn, if_pos hn]
    simp
  · rw [if_neg hn, if_neg hn]
    by_cases hr : u.role ≠ "" ∧ lowerS u.role = "employee"
    · rw [if_pos hr, if_pos hr]
      cases u.employee_id with
      | none =>
        dsimp only
        rw [idxLookup_insertIfAbsent, find?_cons_pair]
        simp
      | some e =>
        dsimp only
        by_cases he : e ≠ ""
        · rw [if_pos he, if_pos he]
          by_cases heu : upperS (stripS e) ≠ upperS (stripS u.username)
          · rw [if_pos heu, if_pos heu]
            rw [idxLookup_insertIfAbsent, idxLookup_insertIfAbsent,
              find?_cons_pair, find?_singleton_pair, Option.or_assoc]
          · rw [if_neg heu, if_neg heu]
            rw [idxLookup_insertIfAbsent, find?_cons_pair]
            simp
        · rw [if_neg he, if_neg he]
          rw [idxLookup_insertIfAbsent, find?_cons_pair]
          simp
    · rw [if_neg hr, if_neg hr]
      by_cases hp : storeIdPattern (upperS (stripS u.username)).data = true
      · rw [if_pos hp, if_pos hp, idxLookup_insertIfAbsent, find?_singleton_pair]
      · rw [if_neg hp, if_neg hp]
        simp

/-- **C8** (amended): the built identifier → user index realises
first-seen-wins exactly — every key maps to the user id of the FIRST
source candidate offering that key (linked mappings' code, full name/id
and its parts, then users' employee_id values, then employee usernames),
so an already-recorded entry is never overwritten by a later conflicting
source.  (Conflict logging, however, only covers the mapping-derived
entries — see the counterexample.) -/
theorem index_first_seen (sd : String) (ms : List MappingRec) (us : List UserRec)
    (k : String) :
    idxLookup (buildIdentifierIndex sd ms us).1 k =
      ((indexCandidates sd ms us).find? (fun p => p.1 = k)).map (fun p => p.2) := by
  unfold buildIdentifierIndex indexCandidates
  rw [foldl_lookup_or idxStepUsername candUsername idxStepUsername_lookup,
    foldl_lookup_or idxStepUserEmpId candUserEmpId idxStepUserEmpId_lookup,
    foldl_lookup_or idxStepMapping candMapping idxStepMapping_lookup]
  rw [List.find?_append, List.find?_append, map_or', map_or']
  simp [idxLookup, Option.or_assoc]

/-- **C8** counterexample: a linked mapping maps `E01` to `u1` while an
active user's `employee_id` maps it to `u2`; the index keeps the
first-seen `u1`, but NO conflict is logged (the conflict list stays
empty), contradicting the claim that every two-user identifier is logged
as a conflict. -/
theorem index_conflict_logging_counterexample :
    buildIdentifierIndex "s"
        [⟨1, "t", "E01", none, none, some "s", some "u1", true⟩]
        [⟨"u2", "t", "bob", some "E01", "manager", "active"⟩] =
      ([("E01", "u1")], []) ∧
      candUserEmpId ⟨"u2", "t", "bob", some "E01", "manager", "active"⟩ =
        [("E01", "u2")] := by decide

/-! ## The cache writer: projection and per-row characterization -/

theorem usersProj_updateUserEmpId (us : List UserRec) (uid e : String) :
    usersProj (updateUserEmpId us uid e) = usersProj us := by
  unfold usersProj updateUserEmpId
  rw [List.map_map]
  apply List.map_congr_left
  intro u _
  by_cases h : u.userID = uid <;> simp [h]

theorem projGet_eq (us : List UserRec) (uid : String) :
    projGet (usersProj us) uid =
      (getUser us uid).map (fun u => (u.userID, u.username, u.status, u.tenantID)) := by
  unfold projGet usersProj getUser
  rw [List.find?_map]
  rfl

theorem resolveS4P_eq (us : List UserRec) (e : String) :
    resolveS4P (usersProj us) e =
      (resolveS4 us e).map (fun u => (u.userID, u.tenantID)) := by
  unfold resolveS4P usersProj resolveS4
  rw [List.find?_map, Option.map_map]
  rfl

theorem getUser_updateUserEmpId (us : List UserRec) (uid e uid' : String) :
    getUser (updateUserEmpId us uid e) uid' =
      (getUser us uid').map
        (fun u => if u.userID = uid then { u with employee_id := some e } else u) := by
  induction us with
  | nil => rfl
  | cons u rest ih =>
    unfold getUser updateUserEmpId at ih ⊢
    simp only [List.map_cons, List.find?_cons]
    by_cases h : u.userID = uid <;> by_cases h' : u.userID = uid'
    · have he : uid = uid' := h ▸ h'
      simp [h, h', he, ih]
    · have he : ¬ (uid = uid') := fun x => h' (h.trans x)
      simp [h, h', he, ih]
    · have hne : ¬ (uid' = uid) := fun x => h (h'.trans x)
      simp [h, h', hne, ih]
    · simp [h, h', ih]

theorem storeUnresolvedRow_cache (sd tid identifier_str : String)
    (empId? name? : Option String) (st : StoreState) :
    (storeUnresolvedRow sd tid identifier_str empId? name? st).cache = st.cache := by
  unfold storeUnresolvedRow
  cases empId? with
  | none => rfl
  | some e =>
    dsimp only
    by_cases ht : tid = ""
    · rw [if_pos ht]
    · rw [if_neg ht]
      cases find_by_sheets_identifier st.mappings e sd <;> rfl

theorem storeUnresolvedRow_users (sd tid identifier_str : String)
    (empId? name? : Option String) (st : StoreState) :
    (storeUnresolvedRow sd tid identifier_str empId? name? st).users = st.users := by
  unfold storeUnresolvedRow
  cases empId? with
  | none => rfl
  | some e =>
    dsimp only
    by_cases ht : tid = ""
    · rw [if_pos ht]
    · rw [if_neg ht]
      cases find_by_sheets_identifier st.mappings e sd <;> rfl


theorem storeResolvedRow_cache (sd tid identCol : String) (cols : List String)
    (row : Row) (empId? : Option String) (uid : String) (st : StoreState) :
    (storeResolvedRow sd tid identCol cols row empId? uid st).cache =
      match projGet (usersProj st.users) uid with
      | none => st.cache
      | some p =>
        if p.2.2.1 ≠ "active" then st.cache
        else writeRowCache sd tid identCol cols row uid p.2.2.2 st.cache := by
  unfold storeResolvedRow
  rw [projGet_eq]
  cases hg : getUser st.users uid with
  | none =>
    cases empId? <;> simp [hg]
  | some uobj =>
    have huid : uobj.userID = uid := by simpa using List.find?_some hg
    cases empId? with
    | none =>
      simp only [hg]
      by_cases hst : uobj.status ≠ "active" <;> simp [hst]
    | some e =>
      simp only [hg]
      by_cases hupd : ¬ optTruthy uobj.employee_id = true ∨
          upperS (uobj.employee_id.getD "") ≠ e
      · rw [if_pos hupd]
        simp only [getUser_updateUserEmpId, hg, Option.map_some', huid, if_pos rfl]
        by_cases hst : uobj.status ≠ "active"
        · simp [hst]
        · simp [hst]
      · rw [if_neg hupd]
        simp only [hg]
        by_cases hst : uobj.status ≠ "active"
        · simp [hst]
        · cases hei : uobj.employee_id with
          | none => simp [hst]
          | some ueid =>
            by_cases h2 : ueid ≠ "" ∧ upperS ueid ≠ upperS e
            · simp [hst, h2, hei]
            · simp [hst, h2, hei]

theorem storeResolvedRow_proj (sd tid identCol : String) (cols : List String)
    (row : Row) (empId? : Option String) (uid : String) (st : StoreState) :
    usersProj (storeResolvedRow sd tid identCol cols row empId? uid st).users =
      usersProj st.users := by
  unfold storeResolvedRow
  cases hg : getUser st.users uid with
  | none =>
    cases empId? <;> simp [hg, usersProj_updateUserEmpId]
  | some uobj =>
    have huid : uobj.userID = uid := by simpa using List.find?_some hg
    cases empId? with
    | none =>
      simp only [hg]
      by_cases hst : uobj.status ≠ "active" <;> simp [hst, usersProj_updateUserEmpId]
    | some e =>
      simp only [hg]
      by_cases hupd : ¬ optTruthy uobj.employee_id = true ∨
          upperS (uobj.employee_id.getD "") ≠ e
      · rw [if_pos hupd]
        simp only [getUser_updateUserEmpId, hg, Option.map_some', huid, if_pos rfl]
        by_cases hst : uobj.status ≠ "active"
        · simp [hst, usersProj_updateUserEmpId]
        · simp [hst, usersProj_updateUserEmpId]
      · rw [if_neg hupd]
        simp only [hg]
        by_cases hst : uobj.status ≠ "active"
        · simp [hst]
        · cases hei : uobj.employee_id with
          | none => simp [hst]
          | some ueid =>
            by_cases h2 : ueid ≠ "" ∧ upperS ueid ≠ upperS e
            · simp [hst, h2, hei, usersProj_updateUserEmpId]
            · simp [hst, h2, hei]

theorem storeUnresolvedRow_state (sd tid identifier_str : String)
    (empId? name? : Option String) (st : StoreState) :
    (storeUnresolvedRow sd tid identifier_str empId? name? st).cache = st.cache ∧
      (storeUnresolvedRow sd tid identifier_str empId? name? st).users = st.users :=
  ⟨storeUnresolvedRow_cache sd tid identifier_str empId? name? st,
    storeUnresolvedRow_users sd tid identifier_str empId? name? st⟩

theorem outcome_match_eq (proj : UProj) (uid : String) (cache : List CacheRow)
    (w : String → String → List CacheRow) :
    (match projGet proj uid with
     | none => cache
     | some p => if p.2.2.1 ≠ "active" then cache else w uid p.2.2.2) =
      (match (match projGet proj uid with
              | none => none
              | some p => if p.2.2.1 ≠ "active" then none
                else some (uid, p.2.2.2)) with
       | none => cache
       | some q => w q.1 q.2) := by
  cases projGet proj uid with
  | none => rfl
  | some p =>
    by_cases hst : p.2.2.1 ≠ "active" <;> simp [hst]

theorem storeStep_cache (sd tid : String) (idx : Idx) (identCol : String)
    (cols : List String) (st : StoreState) (row : Row) :
    (storeStep sd tid idx identCol cols st row).cache =
      gStep sd tid idx identCol cols (usersProj st.users) st.cache row := by
  unfold storeStep gStep rowOutcomeP
  cases hr : rowGet row identCol with
  | none => rfl
  | some identRaw =>
    dsimp only
    by_cases hi : identRaw = ""
    · rw [if_pos hi, if_pos hi]
    · rw [if_neg hi, if_neg hi]
      cases h123 : resolveS123 idx (upperS (stripS identRaw))
          ((storeParseIdentifierL identRaw.data).1.map String.mk) with
      | some uid =>
        dsimp only
        rw [storeResolvedRow_cache]
        cases hpg : projGet (usersProj st.users) uid with
        | none => rfl
        | some p =>
          by_cases hst : p.2.2.1 ≠ "active"
          · simp [hst]
          · simp [hst]
      | none =>
        dsimp only
        cases hp : (storeParseIdentifierL identRaw.data).1 with
        | none =>
          simp only [hp, Option.map_none']
          rw [storeUnresolvedRow_cache]
        | some eChars =>
          simp only [hp, Option.map_some']
          rw [resolveS4P_eq]
          cases hs4 : resolveS4 st.users (String.mk eChars) with
          | none =>
            simp only [hs4, Option.map_none']
            rw [storeUnresolvedRow_cache]
          | some du =>
            simp only [hs4, Option.map_some']
            rw [storeResolvedRow_cache]
            cases hfb : find_by_sheets_identifier st.mappings (String.mk eChars) sd with
            | none =>
              simp only [hfb]
              by_cases hup : ¬ optTruthy du.employee_id = true ∨
                  upperS (du.employee_id.getD "") ≠ String.mk eChars
              · rw [if_pos hup]
                simp only [usersProj_updateUserEmpId]
                exact outcome_match_eq (usersProj st.users) du.userID st.cache
                  (fun a b => writeRowCache sd tid identCol cols row a b st.cache)
              · rw [if_neg hup]
                exact outcome_match_eq (usersProj st.users) du.userID st.cache
                  (fun a b => writeRowCache sd tid identCol cols row a b st.cache)
            | some m =>
              simp only [hfb]
              by_cases hml : ¬ optTruthy m.userID = true
              · rw [if_pos hml]
                by_cases hup : ¬ optTruthy du.employee_id = true ∨
                    upperS (du.employee_id.getD "") ≠ String.mk eChars
                · rw [if_pos hup]
                  simp only [usersProj_updateUserEmpId]
                  exact outcome_match_eq (usersProj st.users) du.userID st.cache
                    (fun a b => writeRowCache sd tid identCol cols row a b st.cache)
                · rw [if_neg hup]
                  exact outcome_match_eq (usersProj st.users) du.userID st.cache
                    (fun a b => writeRowCache sd tid identCol cols row a b st.cache)
              · rw [if_neg hml]
                by_cases hup : ¬ optTruthy du.employee_id = true ∨
                    upperS (du.employee_id.getD "") ≠ String.mk eChars
                · rw [if_pos hup]
                  simp only [usersProj_updateUserEmpId]
                  exact outcome_match_eq (usersProj st.users) du.userID st.cache
                    (fun a b => writeRowCache sd tid identCol cols row a b st.cache)
                · rw [if_neg hup]
                  exact outcome_match_eq (usersProj st.users) du.userID st.cache
                    (fun a b => writeRowCache sd tid identCol cols row a b st.cache)

theorem storeStep_proj (sd tid : String) (idx : Idx) (identCol : String)
    (cols : List String) (st : StoreState) (row : Row) :
    usersProj (storeStep sd tid idx identCol cols st row).users =
      usersProj st.users := by
  unfold storeStep
  cases hr : rowGet row identCol with
  | none => rfl
  | some identRaw =>
    dsimp only
    by_cases hi : identRaw = ""
    · rw [if_pos hi]
    · rw [if_neg hi]
      cases h123 : resolveS123 idx (upperS (stripS identRaw))
          ((storeParseIdentifierL identRaw.data).1.map String.mk) with
      | some uid =>
        dsimp only
        rw [storeResolvedRow_proj]
      | none =>
        dsimp only
        cases hp : (storeParseIdentifierL identRaw.data).1 with
        | none =>
          simp only [hp, Option.map_none']
          rw [storeUnresolvedRow_users]
        | some eChars =>
          simp only [hp, Option.map_some']
          cases hs4 : resolveS4 st.users (String.mk eChars) with
          | none =>
            simp only [hs4]
            rw [storeUnresolvedRow_users]
          | some du =>
            simp only [hs4]
            rw [storeResolvedRow_proj]
            cases hfb : find_by_sheets_identifier st.mappings (String.mk eChars) sd with
            | none =>
              simp only [hfb]
              by_cases hup : ¬ optTruthy du.employee_id = true ∨
                  upperS (du.employee_id.getD "") ≠ String.mk eChars
              · rw [if_pos hup]
                simp [usersProj_updateUserEmpId]
              · rw [if_neg hup]
            | some m =>
              simp only [hfb]
              by_cases hml : ¬ optTruthy m.userID = true
              · rw [if_pos hml]
                by_cases hup : ¬ optTruthy du.employee_id = true ∨
                    upperS (du.employee_id.getD "") ≠ String.mk eChars
                · rw [if_pos hup]
                  simp [usersProj_updateUserEmpId]
                · rw [if_neg hup]
              · rw [if_neg hml]
                by_cases hup : ¬ optTruthy du.employee_id = true ∨
                    upperS (du.employee_id.getD "") ≠ String.mk eChars
                · rw [if_pos hup]
                  simp [usersProj_updateUserEmpId]
                · rw [if_neg hup]

theorem foldl_storeStep_cache (sd tid : String) (idx : Idx) (identCol : String)
    (cols : List String) :
    ∀ (rows : List Row) (st : StoreState),
      (rows.foldl (storeStep sd tid idx identCol cols) st).cache =
        rows.foldl (gStep sd tid idx identCol cols (usersProj st.users)) st.cache := by
  intro rows
  induction rows with
  | nil => intro st; rfl
  | cons row rest ih =>
    intro st
    simp only [List.foldl_cons]
    rw [ih, storeStep_proj, storeStep_cache]

theorem runStore_cache (sd tid : String) (cols : List String) (rows : List Row)
    (ms : List MappingRec) (us : List UserRec) (c : List CacheRow) :
    (runStore sd tid cols rows ms us c).cache =
      match findIdentifierColumn cols with
      | none => c
      | some identCol =>
        rows.foldl (gStep sd tid (buildIdentifierIndex sd ms us).1 identCol cols
          (usersProj us)) c := by
  unfold runStore
  cases findIdentifierColumn cols with
  | none => rfl
  | some identCol =>
    exact foldl_storeStep_cache sd tid (buildIdentifierIndex sd ms us).1 identCol
      cols rows ⟨ms, us, c⟩

theorem mergeCacheRow_append_left {l1 : List CacheRow} (l2 : List CacheRow)
    (row : CacheRow)
    (h : ∀ r ∈ l1, ¬(r.user_id = row.user_id ∧ r.schedule_def_id = row.schedule_def_id ∧
      r.date = row.date)) :
    mergeCacheRow (l1 ++ l2) row = l1 ++ mergeCacheRow l2 row := by
  induction l1 with
  | nil => rfl
  | cons r rest ih =>
    simp only [List.cons_append, mergeCacheRow, List.append_eq]
    rw [if_neg (h r (List.mem_cons_self r rest)),
      ih (fun x hx => h x (List.mem_cons_of_mem r hx))]

theorem mem_mergeCacheRow {c : List CacheRow} {row r : CacheRow}
    (h : r ∈ mergeCacheRow c row) : r ∈ c ∨ r = row := by
  induction c with
  | nil =>
    simp only [mergeCacheRow, List.mem_singleton] at h
    exact Or.inr h
  | cons x rest ih =>
    simp only [mergeCacheRow] at h
    by_cases hk : x.user_id = row.user_id ∧ x.schedule_def_id = row.schedule_def_id ∧
        x.date = row.date
    · rw [if_pos hk] at h
      rcases List.mem_cons.mp h with h1 | h1
      · exact Or.inr h1
      · exact Or.inl (List.mem_cons_of_mem x h1)
    · rw [if_neg hk] at h
      rcases List.mem_cons.mp h with h1 | h1
      · exact Or.inl (h1 ▸ List.mem_cons_self x rest)
      · rcases ih h1 with h2 | h2
        · exact Or.inl (List.mem_cons_of_mem x h2)
        · exact Or.inr h2

theorem writeColStep_append (sd tid : String) (row : Row) (uid ut : String)
    {c1 : List CacheRow} (b : List CacheRow) (col : String)
    (hc1 : ∀ r ∈ c1, ¬(r.user_id = uid ∧ r.schedule_def_id = sd)) :
    writeColStep sd tid row uid ut (c1 ++ b) col =
      c1 ++ writeColStep sd tid row uid ut b col := by
  unfold writeColStep
  cases parse_date col with
  | none => rfl
  | some d =>
    dsimp only
    by_cases ht : ut ≠ tid
    · rw [if_pos ht, if_pos ht]
    · rw [if_neg ht, if_neg ht]
      apply mergeCacheRow_append_left
      intro r hr hcon
      exact hc1 r hr ⟨hcon.1, hcon.2.1⟩

theorem foldl_writeColStep_append (sd tid : String) (row : Row) (uid ut : String)
    {c1 : List CacheRow}
    (hc1 : ∀ r ∈ c1, ¬(r.user_id = uid ∧ r.schedule_def_id = sd)) :
    ∀ (dcols : List String) (b : List CacheRow),
      dcols.foldl (writeColStep sd tid row uid ut) (c1 ++ b) =
        c1 ++ dcols.foldl (writeColStep sd tid row uid ut) b := by
  intro dcols
  induction dcols with
  | nil => intro b; rfl
  | cons col rest ih =>
    intro b
    simp only [List.foldl_cons]
    rw [writeColStep_append sd tid row uid ut b col hc1, ih]

theorem clear_not_mem_key (c : List CacheRow) (uid sd : String) :
    ∀ r ∈ clear_user_schedule c uid sd, ¬(r.user_id = uid ∧ r.schedule_def_id = sd) := by
  intro r hr
  unfold clear_user_schedule at hr
  have h2 := (List.mem_filter.mp hr).2
  simp at h2
  tauto

theorem writeRowCache_decomp (sd tid identCol : String) (cols : List String)
    (row : Row) (uid ut : String) (c : List CacheRow) :
    writeRowCache sd tid identCol cols row uid ut c =
      clear_user_schedule c uid sd ++ rowBlock sd tid identCol cols row uid ut := by
  unfold rowBlock
  unfold writeRowCache
  have h := foldl_writeColStep_append sd tid row uid ut
    (clear_not_mem_key c uid sd) (cols.filter (fun cc => cc ≠ identCol)) []
  simpa using h

theorem rowBlock_mem (sd tid identCol : String) (cols : List String) (row : Row)
    (uid ut : String) :
    ∀ r ∈ rowBlock sd tid identCol cols row uid ut,
      r.user_id = uid ∧ r.schedule_def_id = sd := by
  unfold rowBlock
  unfold writeRowCache
  have : ∀ (dcols : List String) (b : List CacheRow),
      (∀ r ∈ b, r.user_id = uid ∧ r.schedule_def_id = sd) →
      ∀ r ∈ dcols.foldl (writeColStep sd tid row uid ut) b,
        r.user_id = uid ∧ r.schedule_def_id = sd := by
    intro dcols
    induction dcols with
    | nil => intro b hb; exact hb
    | cons col rest ih =>
      intro b hb
      simp only [List.foldl_cons]
      apply ih
      intro r hr
      unfold writeColStep at hr
      cases hpd : parse_date col with
      | none =>
        rw [hpd] at hr
        exact hb r hr
      | some d =>
        rw [hpd] at hr
        dsimp only at hr
        by_cases ht : ut ≠ tid
        · rw [if_pos ht] at hr
          exact hb r hr
        · rw [if_neg ht] at hr
          rcases mem_mergeCacheRow hr with h1 | h1
          · exact hb r h1
          · subst h1
            exact ⟨rfl, rfl⟩
  intro r hr
  dsimp only at hr
  rw [show clear_user_schedule [] uid sd = [] from rfl] at hr
  exact this _ _ (fun x hx => absurd hx (List.not_mem_nil x)) r hr

theorem clear_then_filter (c : List CacheRow) (uid sd : String)
    (touched : List String) :
    (clear_user_schedule c uid sd).filter
        (fun r => ¬(r.schedule_def_id = sd ∧ r.user_id ∈ touched)) =
      c.filter (fun r => ¬(r.schedule_def_id = sd ∧ r.user_id ∈ uid :: touched)) := by
  unfold clear_user_schedule
  rw [List.filter_filter]
  apply List.filter_congr
  intro r _
  by_cases hs : r.schedule_def_id = sd <;> by_cases hu : r.user_id = uid <;>
    by_cases hm : r.user_id ∈ touched <;> simp [hs, hu, hm]

theorem gStep_none {sd tid : String} {idx : Idx} {identCol : String}
    {cols : List String} {proj : UProj} {row : Row}
    (ho : rowOutcomeP idx identCol proj row = none) (c : List CacheRow) :
    gStep sd tid idx identCol cols proj c row = c := by
  unfold gStep
  rw [ho]

theorem gStep_some {sd tid : String} {idx : Idx} {identCol : String}
    {cols : List String} {proj : UProj} {row : Row} {p : String × String}
    (ho : rowOutcomeP idx identCol proj row = some p) (c : List CacheRow) :
    gStep sd tid idx identCol cols proj c row =
      clear_user_schedule c p.1 sd ++ rowBlock sd tid identCol cols row p.1 p.2 := by
  unfold gStep
  rw [ho]
  exact writeRowCache_decomp sd tid identCol cols row p.1 p.2 c

theorem gFold_decomp (sd tid : String) (idx : Idx) (identCol : String)
    (cols : List String) (proj : UProj) :
    ∀ (rows : List Row) (c : List CacheRow),
      rows.foldl (gStep sd tid idx identCol cols proj) c =
        c.filter (fun r => ¬(r.schedule_def_id = sd ∧
            r.user_id ∈ touchedUsers idx identCol proj rows)) ++
          rows.foldl (gStep sd tid idx identCol cols proj) [] := by
  intro rows
  induction rows with
  | nil =>
    intro c
    simp [touchedUsers]
  | cons row rest ih =>
    intro c
    simp only [List.foldl_cons]
    cases ho : rowOutcomeP idx identCol proj row with
    | none =>
      simp only [touchedUsers, ho]
      rw [gStep_none ho c, gStep_none ho []]
      exact ih c
    | some p =>
      simp only [touchedUsers, ho]
      rw [gStep_some ho c, gStep_some ho [],
        show clear_user_schedule [] p.1 sd = [] from rfl, List.nil_append,
        ih (clear_user_schedule c p.1 sd ++
          rowBlock sd tid identCol cols row p.1 p.2),
        ih (rowBlock sd tid identCol cols row p.1 p.2),
        List.filter_append, clear_then_filter, List.append_assoc]

theorem mem_gFold (sd tid : String) (idx : Idx) (identCol : String)
    (cols : List String) (proj : UProj) :
    ∀ (rows : List Row) (c : List CacheRow) (r : CacheRow),
      r ∈ rows.foldl (gStep sd tid idx identCol cols proj) c →
      r ∈ c ∨ (r.schedule_def_id = sd ∧
        r.user_id ∈ touchedUsers idx identCol proj rows) := by
  intro rows
  induction rows with
  | nil =>
    intro c r h
    exact Or.inl h
  | cons row rest ih =>
    intro c r h
    simp only [List.foldl_cons] at h
    cases ho : rowOutcomeP idx identCol proj row with
    | none =>
      rw [gStep_none ho c] at h
      rcases ih c r h with h1 | h1
      · exact Or.inl h1
      · refine Or.inr ⟨h1.1, ?_⟩
        simp only [touchedUsers, ho]
        exact h1.2
    | some p =>
      rw [gStep_some ho c] at h
      rcases ih _ r h with h1 | h1
      · rcases List.mem_append.mp h1 with h2 | h2
        · left
          unfold clear_user_schedule at h2
          exact (List.mem_filter.mp h2).1
        · right
          have hb := rowBlock_mem sd tid identCol cols row p.1 p.2 r h2
          refine ⟨hb.2, ?_⟩
          simp only [touchedUsers, ho]
          rw [hb.1]
          exact List.mem_cons_self p.1 _
      · refine Or.inr ⟨h1.1, ?_⟩
        simp only [touchedUsers, ho]
        exact List.mem_cons_of_mem p.1 h1.2

theorem filter_idem' (p : CacheRow → Bool) (l : List CacheRow) :
    (l.filter p).filter p = l.filter p := by
  rw [List.filter_filter]
  apply List.filter_congr
  intro x _
  cases p x <;> rfl

/-- **C6**: running the Schedule Cache Writer twice over the same sheet
with the same mapping/user state leaves the cache exactly as after the
first run — per-employee clear-then-rewrite makes the pass idempotent
(no duplicates, no drift). -/
theorem store_schedule_data_idempotent (sd tid : String) (cols : List String)
    (rows : List Row) (ms : List MappingRec) (us : List UserRec)
    (c : List CacheRow) :
    (runStore sd tid cols rows ms us
        (runStore sd tid cols rows ms us c).cache).cache =
      (runStore sd tid cols rows ms us c).cache := by
  rw [runStore_cache, runStore_cache]
  cases hc : findIdentifierColumn cols with
  | none => rfl
  | some identCol =>
    dsimp only
    have hnil : (rows.foldl (gStep sd tid (buildIdentifierIndex sd ms us).1
          identCol cols (usersProj us)) []).filter
        (fun r => ¬(r.schedule_def_id = sd ∧ r.user_id ∈
          touchedUsers (buildIdentifierIndex sd ms us).1 identCol (usersProj us) rows)) =
        [] := by
      rw [List.filter_eq_nil_iff]
      intro r hr
      rcases mem_gFold sd tid (buildIdentifierIndex sd ms us).1 identCol cols
          (usersProj us) rows [] r hr with h1 | h1
      · exact absurd h1 (List.not_mem_nil r)
      · simp [h1.1, h1.2]
    rw [gFold_decomp sd tid (buildIdentifierIndex sd ms us).1 identCol cols
        (usersProj us) rows
        (rows.foldl (gStep sd tid (buildIdentifierIndex sd ms us).1 identCol cols
          (usersProj us)) c),
      gFold_decomp sd tid (buildIdentifierIndex sd ms us).1 identCol cols
        (usersProj us) rows c,
      List.filter_append, filter_idem', hnil, List.append_nil]

theorem rowOutcomeP_some_active {idx : Idx} {identCol : String} {proj : UProj}
    {row : Row} {q : String × String}
    (h : rowOutcomeP idx identCol proj row = some q) :
    ∃ p, projGet proj q.1 = some p ∧ p.2.2.1 = "active" := by
  unfold rowOutcomeP at h
  split at h
  · exact absurd h (by simp)
  · split at h
    · exact absurd h (by simp)
    · dsimp only at h
      split at h
      · exact absurd h (by simp)
      · rename_i uid huid
        split at h
        · exact absurd h (by simp)
        · rename_i p hp
          split at h
          · exact absurd h (by simp)
          · rename_i hact
            obtain rfl := Option.some.inj h
            exact ⟨p, hp, not_ne_iff.mp hact⟩

theorem touched_active (idx : Idx) (identCol : String) (proj : UProj) :
    ∀ (rows : List Row) (uid : String),
      uid ∈ touchedUsers idx identCol proj rows →
      ∃ p, projGet proj uid = some p ∧ p.2.2.1 = "active" := by
  intro rows
  induction rows with
  | nil =>
    intro uid h
    exact absurd h (List.not_mem_nil uid)
  | cons row rest ih =>
    intro uid h
    cases ho : rowOutcomeP idx identCol proj row with
    | none =>
      simp only [touchedUsers, ho] at h
      exact ih uid h
    | some p =>
      simp only [touchedUsers, ho] at h
      rcases List.mem_cons.mp h with h1 | h1
      · subst h1
        exact rowOutcomeP_some_active ho
      · exact ih uid h1

theorem projGet_usersProj {us : List UserRec} {uid : String}
    {p : String × String × String × String}
    (h : projGet (usersProj us) uid = some p) :
    ∃ u ∈ us, u.userID = uid ∧ p = (u.userID, u.username, u.status, u.tenantID) := by
  unfold projGet usersProj at h
  rw [List.find?_map] at h
  obtain ⟨u, hu, hfu⟩ := Option.map_eq_some'.mp h
  refine ⟨u, List.mem_of_find?_eq_some hu, ?_, hfu.symm⟩
  have := List.find?_some hu
  simpa using this

/-- **C10**: if every user record with a given id is non-active (or no
record exists at all), a writer pass leaves that user's cached rows for
the schedule untouched — the row is skipped before any clearing. -/
theorem inactive_user_cache_frame (sd tid : String) (cols : List String)
    (rows : List Row) (ms : List MappingRec) (us : List UserRec)
    (c : List CacheRow) (uid : String)
    (h : ∀ u ∈ us, u.userID = uid → u.status ≠ "active") :
    (runStore sd tid cols rows ms us c).cache.filter
        (fun r => r.user_id = uid ∧ r.schedule_def_id = sd) =
      c.filter (fun r => r.user_id = uid ∧ r.schedule_def_id = sd) := by
  have hnt : ∀ identCol,
      uid ∉ touchedUsers (buildIdentifierIndex sd ms us).1 identCol (usersProj us) rows := by
    intro identCol hmem
    obtain ⟨p, hp, hact⟩ :=
      touched_active (buildIdentifierIndex sd ms us).1 identCol (usersProj us) rows uid hmem
    obtain ⟨u, hu, huid, hpe⟩ := projGet_usersProj hp
    rw [hpe] at hact
    exact h u hu huid hact
  rw [runStore_cache]
  cases hc : findIdentifierColumn cols with
  | none => rfl
  | some identCol =>
    dsimp only
    rw [gFold_decomp, List.filter_append]
    have h2 : (rows.foldl (gStep sd tid (buildIdentifierIndex sd ms us).1 identCol
          cols (usersProj us)) []).filter
        (fun r => r.user_id = uid ∧ r.schedule_def_id = sd) = [] := by
      rw [List.filter_eq_nil_iff]
      intro r hr hsm
      rcases mem_gFold sd tid (buildIdentifierIndex sd ms us).1 identCol cols
          (usersProj us) rows [] r hr with h1 | h1
      · exact absurd h1 (List.not_mem_nil r)
      · have : r.user_id = uid ∧ r.schedule_def_id = sd := by
          simpa using hsm
        rw [this.1] at h1
        exact hnt identCol h1.2
    rw [h2, List.append_nil, List.filter_filter]
    apply List.filter_congr
    intro r _
    by_cases hru : r.user_id = uid
    · by_cases hrs : r.schedule_def_id = sd
      · simp [hru, hrs, hnt identCol]
      · simp [hrs]
    · simp [hru]

theorem inactive_user_cache_frame_witness :
    (∀ u ∈ [(⟨"u1", "t", "E01", some "E01", "employee", "inactive"⟩ : UserRec)],
        u.userID = "u1" → u.status ≠ "active") ∧
      ((runStore "s" "t" ["員工(姓名/ID)", "2025-11-03"]
          [[("員工(姓名/ID)", some "王/E01"), ("2025-11-03", some "D ")]] []
          [⟨"u1", "t", "E01", some "E01", "employee", "inactive"⟩]
          [⟨"t", "s", "u1", ⟨2025, 10, 1⟩, "D", "D", "08:00 - 16:00"⟩]).cache.filter
            (fun r => r.user_id = "u1" ∧ r.schedule_def_id = "s") =
        [(⟨"t", "s", "u1", ⟨2025, 10, 1⟩, "D", "D", "08:00 - 16:00"⟩ : CacheRow)].filter
            (fun r => r.user_id = "u1" ∧ r.schedule_def_id = "s")) :=
  ⟨by decide,
    inactive_user_cache_frame "s" "t" ["員工(姓名/ID)", "2025-11-03"]
      [[("員工(姓名/ID)", some "王/E01"), ("2025-11-03", some "D ")]] []
      [⟨"u1", "t", "E01", some "E01", "employee", "inactive"⟩]
      [⟨"t", "s", "u1", ⟨2025, 10, 1⟩, "D", "D", "08:00 - 16:00"⟩] "u1" (by decide)⟩

theorem findCacheRow_merge_other (c : List CacheRow) (r : CacheRow)
    (uid sd : String) (d : Date)
    (h : ¬(r.user_id = uid ∧ r.schedule_def_id = sd ∧ r.date = d)) :
    findCacheRow (mergeCacheRow c r) uid sd d = findCacheRow c uid sd d := by
  induction c with
  | nil =>
    simp [mergeCacheRow, findCacheRow, h]
  | cons hd tl ih =>
    unfold mergeCacheRow
    by_cases hk : hd.user_id = r.user_id ∧ hd.schedule_def_id = r.schedule_def_id ∧
        hd.date = r.date
    · rw [if_pos hk]
      unfold findCacheRow at *
      have hhd : ¬(hd.user_id = uid ∧ hd.schedule_def_id = sd ∧ hd.date = d) := by
        intro hc
        exact h ⟨hk.1 ▸ hc.1, hk.2.1 ▸ hc.2.1, hk.2.2 ▸ hc.2.2⟩
      simp only [List.find?_cons, decide_eq_false h, decide_eq_false hhd]
    · rw [if_neg hk]
      unfold findCacheRow at *
      by_cases hhd : hd.user_id = uid ∧ hd.schedule_def_id = sd ∧ hd.date = d
      · simp only [List.find?_cons, decide_eq_true hhd]
      · simp only [List.find?_cons, decide_eq_false hhd]
        exact ih

theorem findCacheRow_merge_self (c : List CacheRow) (r : CacheRow)
    (uid sd : String) (d : Date)
    (h : r.user_id = uid ∧ r.schedule_def_id = sd ∧ r.date = d) :
    findCacheRow (mergeCacheRow c r) uid sd d = some r := by
  induction c with
  | nil =>
    simp [mergeCacheRow, findCacheRow, h]
  | cons hd tl ih =>
    unfold mergeCacheRow
    by_cases hk : hd.user_id = r.user_id ∧ hd.schedule_def_id = r.schedule_def_id ∧
        hd.date = r.date
    · rw [if_pos hk]
      unfold findCacheRow
      simp only [List.find?_cons, decide_eq_true h]
    · rw [if_neg hk]
      unfold findCacheRow at *
      have hhd : ¬(hd.user_id = uid ∧ hd.schedule_def_id = sd ∧ hd.date = d) := by
        intro hc
        exact hk ⟨h.1 ▸ hc.1, h.2.1 ▸ hc.2.1, h.2.2 ▸ hc.2.2⟩
      simp only [List.find?_cons, decide_eq_false hhd]
      exact ih

theorem writeColStep_none {col : String} (h : parse_date col = none)
    (sd tid : String) (row : Row) (uid ut : String) (c : List CacheRow) :
    writeColStep sd tid row uid ut c col = c := by
  unfold writeColStep
  rw [h]

theorem writeColStep_date {col : String} {d : Date} (h : parse_date col = some d)
    (sd tid : String) (row : Row) (uid : String) (c : List CacheRow) :
    writeColStep sd tid row uid tid c col =
      mergeCacheRow c ⟨tid, sd, uid, d, (cellEntry (rowGet row col)).1,
        (cellEntry (rowGet row col)).2.1, (cellEntry (rowGet row col)).2.2⟩ := by
  unfold writeColStep
  rw [h]
  simp

theorem cellEntry_blank {cell : Option String}
    (h : cell = none ∨ ∃ s, cell = some s ∧
      (stripS s = "" ∨ upperS (stripS s) = "NULL" ∨ upperS (stripS s) = "NONE")) :
    cellEntry cell = ("OFF", "OFF", "休假") := by
  rcases h with h | ⟨s, rfl, hs⟩
  · rw [h]
    rfl
  · unfold cellEntry
    rcases hs with h1 | h1 | h1 <;> simp [h1]

theorem foldl_writeColStep_keep (sd tid : String) (row : Row) (uid : String)
    (col : String) (d : Date) (target : CacheRow)
    (hd : parse_date col = some d)
    (htk : target = ⟨tid, sd, uid, d, (cellEntry (rowGet row col)).1,
      (cellEntry (rowGet row col)).2.1, (cellEntry (rowGet row col)).2.2⟩) :
    ∀ (L : List String) (acc : List CacheRow),
      findCacheRow acc uid sd d = some target →
      (∀ col' ∈ L, ∀ d', parse_date col' = some d' → d' = d → col' = col) →
      findCacheRow (L.foldl (writeColStep sd tid row uid tid) acc) uid sd d =
        some target := by
  intro L
  induction L with
  | nil =>
    intro acc hacc _
    exact hacc
  | cons c' L' ih =>
    intro acc hacc hL
    simp only [List.foldl_cons]
    cases hp : parse_date c' with
    | none =>
      rw [writeColStep_none hp]
      exact ih acc hacc (fun x hx => hL x (List.mem_cons_of_mem c' hx))
    | some d' =>
      rw [writeColStep_date hp]
      by_cases hdd : d' = d
      · have hcc : c' = col := hL c' (List.mem_cons_self c' L') d' hp hdd
        subst hcc
        subst hdd
        refine ih _ ?_ (fun x hx => hL x (List.mem_cons_of_mem _ hx))
        rw [← htk]
        exact findCacheRow_merge_self acc target uid sd d'
          (by rw [htk]; exact ⟨rfl, rfl, rfl⟩)
      · refine ih _ ?_ (fun x hx => hL x (List.mem_cons_of_mem c' hx))
        rw [findCacheRow_merge_other]
        · exact hacc
        · intro hc
          exact hdd hc.2.2

theorem foldl_writeColStep_hit (sd tid : String) (row : Row) (uid : String)
    (col : String) (d : Date) (target : CacheRow)
    (hd : parse_date col = some d)
    (htk : target = ⟨tid, sd, uid, d, (cellEntry (rowGet row col)).1,
      (cellEntry (rowGet row col)).2.1, (cellEntry (rowGet row col)).2.2⟩) :
    ∀ (L : List String) (acc : List CacheRow),
      col ∈ L →
      (∀ col' ∈ L, ∀ d', parse_date col' = some d' → d' = d → col' = col) →
      findCacheRow (L.foldl (writeColStep sd tid row uid tid) acc) uid sd d =
        some target := by
  intro L
  induction L with
  | nil =>
    intro acc hm _
    exact absurd hm (List.not_mem_nil col)
  | cons c' L' ih =>
    intro acc hm hL
    simp only [List.foldl_cons]
    by_cases hcc : c' = col
    · subst hcc
      rw [writeColStep_date hd, ← htk]
      exact foldl_writeColStep_keep sd tid row uid c' d target hd htk L' _
        (findCacheRow_merge_self acc target uid sd d
          (by rw [htk]; exact ⟨rfl, rfl, rfl⟩))
        (fun x hx => hL x (List.mem_cons_of_mem c' hx))
    · have hm' : col ∈ L' := by
        rcases List.mem_cons.mp hm with h1 | h1
        · exact absurd h1.symm hcc
        · exact h1
      cases hp : parse_date c' with
      | none =>
        rw [writeColStep_none hp]
        exact ih acc hm' (fun x hx => hL x (List.mem_cons_of_mem c' hx))
      | some d' =>
        rw [writeColStep_date hp]
        exact ih _ hm' (fun x hx => hL x (List.mem_cons_of_mem c' hx))

/-- **C9**: for a resolved row of a same-tenant user, a date column whose
cell is `None`, empty, whitespace-only, or reads `NULL`/`NONE`
case-insensitively always leaves an explicit cache row with shift type
`OFF` and shift value `OFF` (and the OFF time label), provided the
column is the sheet's only column parsing to that date. -/
theorem blank_cell_off_row (sd tid : String) (idx : Idx) (identCol : String)
    (cols : List String) (proj : UProj) (row : Row) (uid : String)
    (cache : List CacheRow) (col : String) (d : Date)
    (ho : rowOutcomeP idx identCol proj row = some (uid, tid))
    (hcol : col ∈ cols) (hne : col ≠ identCol)
    (hd : parse_date col = some d)
    (huniq : ∀ col' ∈ cols, col' ≠ identCol → parse_date col' = some d → col' = col)
    (hblank : rowGet row col = none ∨ ∃ s, rowGet row col = some s ∧
      (stripS s = "" ∨ upperS (stripS s) = "NULL" ∨ upperS (stripS s) = "NONE")) :
    findCacheRow (gStep sd tid idx identCol cols proj cache row) uid sd d =
      some ⟨tid, sd, uid, d, "OFF", "OFF", "休假"⟩ := by
  have hce := cellEntry_blank hblank
  unfold gStep
  rw [ho]
  dsimp only
  unfold writeRowCache
  dsimp only
  refine foldl_writeColStep_hit sd tid row uid col d
    ⟨tid, sd, uid, d, "OFF", "OFF", "休假"⟩ hd (by rw [hce]) _ _ ?_ ?_
  · exact List.mem_filter.mpr ⟨hcol, by simp [hne]⟩
  · intro x hx d'' hp hdd
    exact huniq x (List.mem_filter.mp hx).1
      (by simpa using (List.mem_filter.mp hx).2) (by rw [hp, hdd])

theorem blank_cell_off_row_witness :
    (parse_date "2025-11-03" = some ⟨2025, 11, 3⟩) ∧
      findCacheRow (gStep "s" "t" [("E01", "u1")] "員工(姓名/ID)"
          ["員工(姓名/ID)", "2025-11-03"] [("u1", "E01", "active", "t")] []
          [("員工(姓名/ID)", some "E01"), ("2025-11-03", some "  ")]) "u1" "s"
          ⟨2025, 11, 3⟩ =
        some ⟨"t", "s", "u1", ⟨2025, 11, 3⟩, "OFF", "OFF", "休假"⟩ :=
  ⟨by decide,
    blank_cell_off_row "s" "t" [("E01", "u1")] "員工(姓名/ID)"
      ["員工(姓名/ID)", "2025-11-03"] [("u1", "E01", "active", "t")]
      [("員工(姓名/ID)", some "E01"), ("2025-11-03", some "  ")] "u1" [] "2025-11-03"
      ⟨2025, 11, 3⟩ (by decide) (by decide) (by decide) (by decide) (by decide)
      (Or.inr ⟨"  ", by decide, Or.inl (by decide)⟩)⟩

theorem cellEntry_nonblank {s : String}
    (h : ¬(stripS s = "" ∨ upperS (stripS s) = "NULL" ∨ upperS (stripS s) = "NONE")) :
    cellEntry (some s) = (normalize_shift_type (stripS s), stripS s,
      get_time_range (normalize_shift_type (stripS s))) := by
  unfold cellEntry
  dsimp only
  rw [if_neg h]

theorem shift_value_verbatim_counterexample :
    (runStore "s" "t" ["員工(姓名/ID)", "2025-11-03"]
        [[("員工(姓名/ID)", some "王/E01"), ("2025-11-03", some "D ")]] []
        [⟨"u1", "t", "E01", some "E01", "employee", "active"⟩] []).cache =
      [⟨"t", "s", "u1", ⟨2025, 11, 3⟩, "D", "D", "08:00 - 16:00"⟩] ∧
    "D" ≠ "D " :=
  ⟨by decide, by decide⟩

/-- **C7 (amended)**: for a resolved same-tenant row and a non-blank,
non-`NULL`/`NONE` cell under the unique column parsing to date `d`, the
stored cache row keeps the *stripped* cell text as shift value (verbatim
up to whitespace trimming), and separately a coarse shift type
`normalize_shift_type` of the stripped text, which always lies in
`{D, E, N, OFF}`. -/
theorem shift_value_stored_amended (sd tid : String) (idx : Idx) (identCol : String)
    (cols : List String) (proj : UProj) (row : Row) (uid : String)
    (cache : List CacheRow) (col : String) (d : Date) (s : String)
    (ho : rowOutcomeP idx identCol proj row = some (uid, tid))
    (hcol : col ∈ cols) (hne : col ≠ identCol) (hd : parse_date col = some d)
    (huniq : ∀ col' ∈ cols, col' ≠ identCol → parse_date col' = some d → col' = col)
    (hcell : rowGet row col = some s)
    (hnb : ¬(stripS s = "" ∨ upperS (stripS s) = "NULL" ∨ upperS (stripS s) = "NONE")) :
    findCacheRow (gStep sd tid idx identCol cols proj cache row) uid sd d =
      some ⟨tid, sd, uid, d, normalize_shift_type (stripS s), stripS s,
        get_time_range (normalize_shift_type (stripS s))⟩ ∧
      normalize_shift_type (stripS s) ∈ ["D", "E", "N", "OFF"] := by
  constructor
  · have hce : cellEntry (rowGet row col) = (normalize_shift_type (stripS s), stripS s,
        get_time_range (normalize_shift_type (stripS s))) := by
      rw [hcell]
      exact cellEntry_nonblank hnb
    unfold gStep
    rw [ho]
    dsimp only
    unfold writeRowCache
    dsimp only
    refine foldl_writeColStep_hit sd tid row uid col d _ hd (by rw [hce]) _ _ ?_ ?_
    · exact List.mem_filter.mpr ⟨hcol, by simp [hne]⟩
    · intro x hx d'' hp hdd
      exact huniq x (List.mem_filter.mp hx).1
        (by simpa using (List.mem_filter.mp hx).2) (by rw [hp, hdd])
  · exact normalize_shift_type_mem (stripS s)

theorem shift_value_stored_amended_witness :
    (stripS "D " = "D") ∧
      (findCacheRow (gStep "s" "t" [("E01", "u1")] "員工(姓名/ID)"
            ["員工(姓名/ID)", "2025-11-03"] [("u1", "E01", "active", "t")] []
            [("員工(姓名/ID)", some "王/E01"), ("2025-11-03", some "D ")]) "u1" "s"
            ⟨2025, 11, 3⟩ =
          some ⟨"t", "s", "u1", ⟨2025, 11, 3⟩, normalize_shift_type (stripS "D "),
            stripS "D ", get_time_range (normalize_shift_type (stripS "D "))⟩ ∧
        normalize_shift_type (stripS "D ") ∈ ["D", "E", "N", "OFF"]) :=
  ⟨by decide,
    shift_value_stored_amended "s" "t" [("E01", "u1")] "員工(姓名/ID)"
      ["員工(姓名/ID)", "2025-11-03"] [("u1", "E01", "active", "t")]
      [("員工(姓名/ID)", some "王/E01"), ("2025-11-03", some "D ")] "u1" [] "2025-11-03"
      ⟨2025, 11, 3⟩ "D " (by decide) (by decide) (by decide) (by decide) (by decide)
      (by decide) (by decide)⟩

theorem refreshMapping_mid (sd : String) (emp_name : Option String)
    (emp_name_id : String) (linked : Option UserRec) (m : MappingRec) :
    (refreshMapping sd emp_name emp_name_id linked m).mid = m.mid := by
  unfold refreshMapping
  cases linked <;> cases emp_name <;> dsimp only <;> split_ifs <;> rfl

theorem refreshMapping_ident (sd : String) (emp_name : Option String)
    (emp_name_id : String) (linked : Option UserRec) (m : MappingRec) :
    (refreshMapping sd emp_name emp_name_id linked m).sheets_identifier =
      m.sheets_identifier := by
  unfold refreshMapping
  cases linked <;> cases emp_name <;> dsimp only <;> split_ifs <;> rfl

theorem refreshMapping_tenant (sd : String) (emp_name : Option String)
    (emp_name_id : String) (linked : Option UserRec) (m : MappingRec) :
    (refreshMapping sd emp_name emp_name_id linked m).tenantID = m.tenantID := by
  unfold refreshMapping
  cases linked <;> cases emp_name <;> dsimp only <;> split_ifs <;> rfl

theorem refreshMapping_active (sd : String) (emp_name : Option String)
    (emp_name_id : String) (linked : Option UserRec) (m : MappingRec) :
    (refreshMapping sd emp_name emp_name_id linked m).is_active = true := by
  unfold refreshMapping
  cases linked <;> cases emp_name <;> dsimp only <;> split_ifs <;>
    first
      | rfl
      | (rename_i h; simpa using h)

theorem refreshMapping_sched (sd : String) (emp_name : Option String)
    (emp_name_id : String) (linked : Option UserRec) (m : MappingRec)
    (h : m.schedule_def_id = some sd ∨ m.schedule_def_id = none) :
    (refreshMapping sd emp_name emp_name_id linked m).schedule_def_id = some sd := by
  unfold refreshMapping
  rcases h with h | h <;>
    cases linked <;> cases emp_name <;> dsimp only <;> split_ifs <;>
      simp_all

theorem mem_replaceByMid_of_ne {ms : List MappingRec} {y : MappingRec}
    (hy : y ∈ ms) (mid : Nat) (mNew : MappingRec) (hne : y.mid ≠ mid) :
    y ∈ replaceByMid ms mid mNew := by
  unfold replaceByMid
  have := List.mem_map_of_mem (fun m => if m.mid = mid then mNew else m) hy
  dsimp only at this
  rwa [if_neg hne] at this

theorem mem_replaceByMid_self {ms : List MappingRec} {m : MappingRec}
    (hm : m ∈ ms) (mNew : MappingRec) :
    mNew ∈ replaceByMid ms m.mid mNew := by
  unfold replaceByMid
  have := List.mem_map_of_mem (fun x => if x.mid = m.mid then mNew else x) hm
  dsimp only at this
  rwa [if_pos rfl] at this

theorem forall_replaceByMid {P : MappingRec → Prop} {ms : List MappingRec}
    {mid : Nat} {mNew : MappingRec}
    (hP : ∀ y ∈ ms, P y) (hN : P mNew) :
    ∀ x ∈ replaceByMid ms mid mNew, P x := by
  intro x hx
  unfold replaceByMid at hx
  obtain ⟨y, hy, hfy⟩ := List.mem_map.mp hx
  by_cases h : y.mid = mid
  · rw [if_pos h] at hfy
    exact hfy ▸ hN
  · rw [if_neg h] at hfy
    exact hfy ▸ hP y hy

theorem mids_replaceByMid (ms : List MappingRec) (mid : Nat) (mNew : MappingRec)
    (h : mNew.mid = mid) :
    (replaceByMid ms mid mNew).map (fun m => m.mid) = ms.map (fun m => m.mid) := by
  unfold replaceByMid
  rw [List.map_map]
  apply List.map_congr_left
  intro y _
  by_cases hy : y.mid = mid
  · simp [hy, h]
  · simp [hy]

theorem eq_of_mid_eq {ms : List MappingRec}
    (hnd : (ms.map (fun m => m.mid)).Nodup) {y m : MappingRec}
    (hy : y ∈ ms) (hm : m ∈ ms) (h : y.mid = m.mid) : y = m :=
  List.inj_on_of_nodup_map hnd hy hm h

theorem foldl_max_le_init (l : List Nat) : ∀ a : Nat, a ≤ l.foldl max a := by
  induction l with
  | nil =>
    intro a
    exact Nat.le_refl a
  | cons b t ih =>
    intro a
    exact Nat.le_trans (Nat.le_max_left a b) (ih (max a b))

theorem mem_le_foldl_max (l : List Nat) : ∀ (a x : Nat), x ∈ l → x ≤ l.foldl max a := by
  induction l with
  | nil =>
    intro a x hx
    exact absurd hx (List.not_mem_nil x)
  | cons b t ih =>
    intro a x hx
    rcases List.mem_cons.mp hx with h1 | h1
    · subst h1
      exact Nat.le_trans (Nat.le_max_right a x) (foldl_max_le_init t (max a x))
    · exact ih (max a b) x h1

theorem freshMid_not_mem (ms : List MappingRec) :
    ∀ m ∈ ms, m.mid ≠ freshMid ms := by
  intro m hm h
  unfold freshMid at h
  have hle : m.mid ≤ (ms.map (fun m => m.mid)).foldl max 0 :=
    mem_le_foldl_max _ 0 m.mid (List.mem_map_of_mem _ hm)
  omega

theorem mapsPreserved_refl (sd : String) (ms : List MappingRec) :
    MapsPreserved sd ms ms := by
  intro m hm
  exact ⟨m, hm, rfl, rfl, fun h => h, fun _ h => h⟩

theorem mapsPreserved_trans {sd : String} {a b c : List MappingRec}
    (h1 : MapsPreserved sd a b) (h2 : MapsPreserved sd b c) :
    MapsPreserved sd a c := by
  intro m hm
  obtain ⟨m1, hm1, e1, e2, e3, e4⟩ := h1 m hm
  obtain ⟨m2, hm2, f1, f2, f3, f4⟩ := h2 m1 hm1
  refine ⟨m2, hm2, f1.trans e1, f2.trans e2, fun h => f3 (e3 h), fun h hs => ?_⟩
  exact f4 (e3 h) (e4 h hs)

theorem mapsPreserved_append (sd : String) (ms extra : List MappingRec) :
    MapsPreserved sd ms (ms ++ extra) := by
  intro m hm
  exact ⟨m, List.mem_append_left extra hm, rfl, rfl, fun h => h, fun _ h => h⟩

theorem reconMappingPart_inv (sd tid empId : String) (emp_name : Option String)
    (emp_name_id : String) (linked : Option UserRec) (st : ReconState)
    (hC : ∀ m ∈ st.mappings, m.is_active = true → m.tenantID = tid →
      m.userID ≠ none →
      (m.schedule_def_id = some sd ∨ m.schedule_def_id = none))
    (hD : (st.mappings.map (fun m => m.mid)).Nodup) :
    MapsPreserved sd st.mappings
        (reconMappingPart sd tid empId emp_name emp_name_id linked st).mappings ∧
      (∃ m' ∈ (reconMappingPart sd tid empId emp_name emp_name_id linked st).mappings,
        m'.is_active = true ∧ m'.schedule_def_id = some sd ∧
          m'.sheets_identifier = empId) ∧
      (∀ m ∈ (reconMappingPart sd tid empId emp_name emp_name_id linked st).mappings,
        m.is_active = true → m.tenantID = tid → m.userID ≠ none →
        (m.schedule_def_id = some sd ∨ m.schedule_def_id = none)) ∧
      ((reconMappingPart sd tid empId emp_name emp_name_id linked st).mappings.map
        (fun m => m.mid)).Nodup := by
  have hrepl : ∀ m ∈ st.mappings, m.sheets_identifier = empId → m.is_active = true →
      (m.schedule_def_id = some sd ∨ m.schedule_def_id = none) →
      ∀ ms', ms' = replaceByMid st.mappings m.mid
          (refreshMapping sd emp_name emp_name_id linked m) →
      MapsPreserved sd st.mappings ms' ∧
        (∃ m' ∈ ms', m'.is_active = true ∧ m'.schedule_def_id = some sd ∧
          m'.sheets_identifier = empId) ∧
        (∀ x ∈ ms', x.is_active = true → x.tenantID = tid → x.userID ≠ none →
          (x.schedule_def_id = some sd ∨ x.schedule_def_id = none)) ∧
        (ms'.map (fun m => m.mid)).Nodup := by
    intro m hmem hident hact hcond ms' hms'
    subst hms'
    refine ⟨?_, ?_, ?_, ?_⟩
    · intro y hy
      by_cases hmid : y.mid = m.mid
      · obtain rfl := eq_of_mid_eq hD hy hmem hmid
        refine ⟨refreshMapping sd emp_name emp_name_id linked y,
          mem_replaceByMid_self hy _, refreshMapping_mid sd emp_name emp_name_id linked y,
          refreshMapping_ident sd emp_name emp_name_id linked y,
          fun _ => refreshMapping_active sd emp_name emp_name_id linked y,
          fun _ _ => refreshMapping_sched sd emp_name emp_name_id linked y hcond⟩
      · exact ⟨y, mem_replaceByMid_of_ne hy m.mid _ hmid, rfl, rfl,
          fun h => h, fun _ h => h⟩
    · exact ⟨refreshMapping sd emp_name emp_name_id linked m,
        mem_replaceByMid_self hmem _,
        refreshMapping_active sd emp_name emp_name_id linked m,
        refreshMapping_sched sd emp_name emp_name_id linked m hcond,
        (refreshMapping_ident sd emp_name emp_name_id linked m).trans hident⟩
    · exact forall_replaceByMid hC
        (fun _ _ _ => Or.inl (refreshMapping_sched sd emp_name emp_name_id linked m hcond))
    · rw [mids_replaceByMid st.mappings m.mid _
        (refreshMapping_mid sd emp_name emp_name_id linked m)]
      exact hD
  have happ : ∀ uopt : Option String, ∀ ms',
      ms' = st.mappings ++ [⟨freshMid st.mappings, tid, empId, some emp_name_id,
        emp_name, some sd, uopt, true⟩] →
      MapsPreserved sd st.mappings ms' ∧
        (∃ m' ∈ ms', m'.is_active = true ∧ m'.schedule_def_id = some sd ∧
          m'.sheets_identifier = empId) ∧
        (∀ x ∈ ms', x.is_active = true → x.tenantID = tid → x.userID ≠ none →
          (x.schedule_def_id = some sd ∨ x.schedule_def_id = none)) ∧
        (ms'.map (fun m => m.mid)).Nodup := by
    intro uopt ms' hms'
    subst hms'
    refine ⟨mapsPreserved_append sd st.mappings _, ?_, ?_, ?_⟩
    · refine ⟨⟨freshMid st.mappings, tid, empId, some emp_name_id,
        emp_name, some sd, uopt, true⟩, ?_, rfl, rfl, rfl⟩
      exact List.mem_append_right st.mappings (List.mem_singleton.mpr rfl)
    · intro x hx
      rcases List.mem_append.mp hx with h1 | h1
      · exact hC x h1
      · obtain rfl := List.mem_singleton.mp h1
        exact fun _ _ _ => Or.inl rfl
    · rw [List.map_append]
      rw [List.nodup_append]
      refine ⟨hD, List.nodup_singleton _, ?_⟩
      intro a ha hb
      simp only [List.map_cons, List.map_nil, List.mem_singleton] at hb
      obtain ⟨y, hy, hya⟩ := List.mem_map.mp ha
      exact freshMid_not_mem st.mappings y hy (hya.trans hb)
  unfold reconMappingPart
  dsimp only
  cases hex : st.mappings.find? (fun m =>
      m.sheets_identifier = empId ∧ m.schedule_def_id = some sd ∧ m.is_active) with
  | some m =>
    simp only [hex]
    have hmem := List.mem_of_find?_eq_some hex
    have hpred := List.find?_some hex
    simp only [decide_eq_true_eq] at hpred
    rw [if_pos (Or.inl hpred.2.1)]
    exact hrepl m hmem hpred.1 hpred.2.2 (Or.inl hpred.2.1) _ rfl
  | none =>
    simp only [hex]
    cases hex2 : st.mappings.find? (fun m =>
        m.sheets_identifier = empId ∧ m.tenantID = tid ∧ m.is_active) with
    | some m =>
      simp only [hex2]
      have hmem := List.mem_of_find?_eq_some hex2
      have hpred := List.find?_some hex2
      simp only [decide_eq_true_eq] at hpred
      by_cases hcond : m.schedule_def_id = some sd ∨ m.schedule_def_id = none
      · rw [if_pos hcond]
        exact hrepl m hmem hpred.1 hpred.2.2 hcond _ rfl
      · rw [if_neg hcond]
        have hlink : m.userID = none := by
          by_contra hl
          exact hcond (hC m hmem hpred.2.2 hpred.2.1 hl)
        rw [if_pos hlink]
        exact happ none _ rfl
    | none =>
      simp only [hex2]
      exact happ (linked.map (fun u => u.userID)) _ rfl

theorem mem_insertSeen (seen : List String) (c code : String)
    (h : code ∈ insertSeen seen c) : code ∈ seen ∨ code = c := by
  unfold insertSeen at h
  split at h
  · exact Or.inl h
  · rcases List.mem_append.mp h with h1 | h1
    · exact Or.inl h1
    · exact Or.inr (List.mem_singleton.mp h1)

theorem reconStep_seen (sd tid : String) (acc : ReconState × List String)
    (cell : String) :
    (reconStep sd tid acc cell).2 =
      match syncParseIdentifier cell with
      | none => acc.2
      | some p => insertSeen acc.2 (upperS (String.mk p.emp_id)) := by
  unfold reconStep
  cases hp : syncParseIdentifier cell with
  | none => rfl
  | some p =>
    dsimp only
    split
    · rfl
    · split <;> rfl

theorem reconStep_inv (sd tid : String) (ms0 : List MappingRec)
    (acc : ReconState × List String) (cell : String)
    (h1 : MapsPreserved sd ms0 acc.1.mappings)
    (h2 : ReconInv sd tid acc.1.mappings acc.2) :
    MapsPreserved sd ms0 (reconStep sd tid acc cell).1.mappings ∧
      ReconInv sd tid (reconStep sd tid acc cell).1.mappings
        (reconStep sd tid acc cell).2 := by
  obtain ⟨hB, hC, hD⟩ := h2
  unfold reconStep
  cases hp : syncParseIdentifier cell with
  | none => exact ⟨h1, hB, hC, hD⟩
  | some p =>
    dsimp only
    have main : ∀ (st' : ReconState) (linked : Option UserRec),
        st'.mappings = acc.1.mappings →
        MapsPreserved sd ms0
            (reconMappingPart sd tid (String.mk p.emp_id) (p.emp_name.map String.mk)
              (String.mk p.emp_name_id) linked st').mappings ∧
          ReconInv sd tid
            (reconMappingPart sd tid (String.mk p.emp_id) (p.emp_name.map String.mk)
              (String.mk p.emp_name_id) linked st').mappings
            (insertSeen acc.2 (upperS (String.mk p.emp_id))) := by
      intro st' linked hms
      obtain ⟨hp1, hp2, hp3, hp4⟩ := reconMappingPart_inv sd tid (String.mk p.emp_id)
        (p.emp_name.map String.mk) (String.mk p.emp_name_id) linked st'
        (by rw [hms]; exact hC) (by rw [hms]; exact hD)
      rw [hms] at hp1
      refine ⟨mapsPreserved_trans h1 hp1, ?_, hp3, hp4⟩
      intro code hcode
      rcases mem_insertSeen _ _ _ hcode with hold | hnew
      · obtain ⟨m, hm, hma, hmsd, hmc⟩ := hB code hold
        obtain ⟨m', hm', _, e2, e3, e4⟩ := hp1 m hm
        exact ⟨m', hm', e3 hma, e4 hma hmsd, by rw [e2]; exact hmc⟩
      · subst hnew
        obtain ⟨m', hm', ha, hs, hi⟩ := hp2
        exact ⟨m', hm', ha, hs, by rw [hi]⟩
    split
    · exact main acc.1 (some _) rfl
    · split
      · rename_i lu _
        refine main _ (some lu) ?_
        split <;> rfl
      · exact main acc.1 none rfl

theorem foldl_reconStep_inv (sd tid : String) (ms0 : List MappingRec) :
    ∀ (cells : List String) (acc : ReconState × List String),
      MapsPreserved sd ms0 acc.1.mappings →
      ReconInv sd tid acc.1.mappings acc.2 →
      MapsPreserved sd ms0 (cells.foldl (reconStep sd tid) acc).1.mappings ∧
        ReconInv sd tid (cells.foldl (reconStep sd tid) acc).1.mappings
          (cells.foldl (reconStep sd tid) acc).2 := by
  intro cells
  induction cells with
  | nil =>
    intro acc ha hb
    exact ⟨ha, hb⟩
  | cons cell rest ih =>
    intro acc ha hb
    simp only [List.foldl_cons]
    obtain ⟨h1, h2⟩ := reconStep_inv sd tid ms0 acc cell ha hb
    exact ih (reconStep sd tid acc cell) h1 h2

theorem foldl_reconStep_seen (sd tid : String) :
    ∀ (cells : List String) (acc : ReconState × List String),
      (cells.foldl (reconStep sd tid) acc).2 =
        cells.foldl (fun seen cell =>
          match syncParseIdentifier cell with
          | none => seen
          | some p => insertSeen seen (upperS (String.mk p.emp_id))) acc.2 := by
  intro cells
  induction cells with
  | nil =>
    intro acc
    rfl
  | cons cell rest ih =>
    intro acc
    simp only [List.foldl_cons]
    rw [ih (reconStep sd tid acc cell), reconStep_seen]

theorem reconcile_mappings (sd tid : String) (cells : List String)
    (st : ReconState) :
    (reconcile sd tid cells st).mappings =
      (cells.foldl (reconStep sd tid) (st, [])).1.mappings.map
        (deactivateMissing sd (cells.foldl (reconStep sd tid) (st, [])).2) := rfl

theorem deactivateMissing_mid (sd : String) (seen : List String) (m : MappingRec) :
    (deactivateMissing sd seen m).mid = m.mid := by
  unfold deactivateMissing
  split <;> rfl

theorem deactivateMissing_ident (sd : String) (seen : List String) (m : MappingRec) :
    (deactivateMissing sd seen m).sheets_identifier = m.sheets_identifier := by
  unfold deactivateMissing
  split <;> rfl

theorem deactivateMissing_of_seen (sd : String) (seen : List String) (m : MappingRec)
    (h : upperS m.sheets_identifier ∈ seen) : deactivateMissing sd seen m = m := by
  unfold deactivateMissing
  rw [if_neg]
  intro hc
  exact hc.2.2 (List.elem_iff.mpr h)

theorem deactivateMissing_hit (sd : String) (seen : List String) (m : MappingRec)
    (h1 : m.schedule_def_id = some sd) (h2 : m.is_active = true)
    (h3 : upperS m.sheets_identifier ∉ seen) :
    deactivateMissing sd seen m = { m with is_active := false } := by
  unfold deactivateMissing
  rw [if_pos]
  refine ⟨h1, by rw [h2], ?_⟩
  intro hc
  exact h3 (List.elem_iff.mp hc)

theorem deactivateMissing_active {sd : String} {seen : List String} {m : MappingRec}
    (h : (deactivateMissing sd seen m).is_active = true) :
    m.is_active = true ∧ (m.schedule_def_id = some sd →
      upperS m.sheets_identifier ∈ seen) ∧ deactivateMissing sd seen m = m := by
  unfold deactivateMissing at h ⊢
  split at h
  · exact absurd h (by simp)
  · rename_i hc
    rw [if_neg hc]
    push_neg at hc
    refine ⟨h, ?_, rfl⟩
    intro hsd
    exact List.elem_iff.mp (hc hsd (by simpa using h))

theorem mem_activeCodesFor (sd : String) (ms : List MappingRec) (code : String) :
    code ∈ activeCodesFor sd ms ↔
      ∃ m ∈ ms, m.is_active = true ∧ m.schedule_def_id = some sd ∧
        upperS m.sheets_identifier = code := by
  unfold activeCodesFor
  constructor
  · intro h
    obtain ⟨m, hm, hmc⟩ := List.mem_map.mp h
    have := List.mem_filter.mp hm
    simp only [decide_eq_true_eq] at this
    exact ⟨m, this.1, by simpa using this.2.1, this.2.2, hmc⟩
  · intro ⟨m, hm, ha, hs, hc⟩
    refine List.mem_map.mpr ⟨m, List.mem_filter.mpr ⟨hm, ?_⟩, hc⟩
    simp [ha, hs]

theorem reconciler_reactivation_counterexample :
    (reconcile "s" "t" ["E01"]
        ⟨[⟨1, "t", "E01", none, none, some "s", none, false⟩,
          ⟨2, "t", "E01", none, none, some "s2", some "u9", true⟩], []⟩).mappings =
      [⟨1, "t", "E01", none, none, some "s", none, false⟩,
       ⟨2, "t", "E01", none, none, some "s2", some "u9", true⟩] ∧
    parsedSheetCodes ["E01"] = ["E01"] ∧
    activeCodesFor "s"
      (reconcile "s" "t" ["E01"]
        ⟨[⟨1, "t", "E01", none, none, some "s", none, false⟩,
          ⟨2, "t", "E01", none, none, some "s2", some "u9", true⟩], []⟩).mappings =
      [] :=
  ⟨by decide, by decide, by decide⟩

/-- **C5 (amended)**: after one reconciliation pass, (1) no mapping row
is ever deleted (every prior row id survives, with its code); (2) every
mapping that was active for the schedule and whose code does not occur
in the sheet is soft-deleted (same id, `is_active = false`); and (3)
provided every active mapping of the tenant with a non-`NULL` `userID`
(empty string included — the creation guard at line 617 tests `is None`,
not truthiness) sits on this schedule or on none, and mapping ids are
distinct, the set of active codes for the schedule afterwards equals the
set of codes parsed from the sheet.
(A previously *inactive* mapping is never reactivated — the matcher only
searches active mappings; its code instead gets a fresh row, see the
counterexample.) -/
theorem reconciler_drift_amended (sd tid : String) (cells : List String)
    (st : ReconState)
    (hC : ∀ m ∈ st.mappings, m.is_active = true → m.tenantID = tid →
      m.userID ≠ none →
      (m.schedule_def_id = some sd ∨ m.schedule_def_id = none))
    (hD : (st.mappings.map (fun m => m.mid)).Nodup) :
    (∀ m ∈ st.mappings, ∃ m' ∈ (reconcile sd tid cells st).mappings,
        m'.mid = m.mid ∧ m'.sheets_identifier = m.sheets_identifier) ∧
      (∀ m ∈ st.mappings, m.is_active = true → m.schedule_def_id = some sd →
        upperS m.sheets_identifier ∉ parsedSheetCodes cells →
        ∃ m' ∈ (reconcile sd tid cells st).mappings,
          m'.mid = m.mid ∧ m'.is_active = false) ∧
      (∀ code, code ∈ activeCodesFor sd (reconcile sd tid cells st).mappings ↔
        code ∈ parsedSheetCodes cells) := by
  obtain ⟨hpres, hB, hC1, hD1⟩ := foldl_reconStep_inv sd tid st.mappings cells (st, [])
    (mapsPreserved_refl sd st.mappings)
    ⟨fun code hcode => absurd hcode (List.not_mem_nil code), hC, hD⟩
  have hseen : (cells.foldl (reconStep sd tid) (st, [])).2 = parsedSheetCodes cells := by
    rw [foldl_reconStep_seen]
    rfl
  refine ⟨?_, ?_, ?_⟩
  · intro m hm
    obtain ⟨m', hm', e1, e2, _, _⟩ := hpres m hm
    refine ⟨deactivateMissing sd (cells.foldl (reconStep sd tid) (st, [])).2 m', ?_, ?_, ?_⟩
    · rw [reconcile_mappings]
      exact List.mem_map_of_mem _ hm'
    · rw [deactivateMissing_mid]
      exact e1
    · rw [deactivateMissing_ident]
      exact e2
  · intro m hm hact hsched hnot
    obtain ⟨m', hm', e1, e2, e3, e4⟩ := hpres m hm
    have hni : upperS m'.sheets_identifier ∉ (cells.foldl (reconStep sd tid) (st, [])).2 := by
      rw [e2, hseen]
      exact hnot
    refine ⟨deactivateMissing sd (cells.foldl (reconStep sd tid) (st, [])).2 m', ?_, ?_, ?_⟩
    · rw [reconcile_mappings]
      exact List.mem_map_of_mem _ hm'
    · rw [deactivateMissing_mid]
      exact e1
    · rw [deactivateMissing_hit _ _ _ (e4 hact hsched) (e3 hact) hni]
  · intro code
    constructor
    · intro h
      rw [mem_activeCodesFor] at h
      obtain ⟨x, hx, hxa, hxs, hxc⟩ := h
      rw [reconcile_mappings] at hx
      obtain ⟨y, hy, hyx⟩ := List.mem_map.mp hx
      rw [← hyx] at hxa hxs hxc
      obtain ⟨_, himp, heq⟩ := deactivateMissing_active hxa
      rw [heq] at hxs hxc
      rw [← hxc]
      rw [← hseen]
      exact himp hxs
    · intro h
      obtain ⟨m, hm, hma, hms, hmc⟩ := hB code (by rw [hseen]; exact h)
      have hunch : deactivateMissing sd (cells.foldl (reconStep sd tid) (st, [])).2 m = m :=
        deactivateMissing_of_seen _ _ _ (by rw [hmc, hseen]; exact h)
      rw [mem_activeCodesFor]
      refine ⟨m, ?_, hma, hms, hmc⟩
      rw [reconcile_mappings]
      have := List.mem_map_of_mem
        (deactivateMissing sd (cells.foldl (reconStep sd tid) (st, [])).2) hm
      rwa [hunch] at this

theorem reconciler_drift_amended_witness :
    ((([⟨1, "t", "E01", none, none, some "s", none, true⟩,
        ⟨2, "t", "E02", none, none, some "s", none, true⟩] :
          List MappingRec).map (fun m => m.mid)).Nodup) ∧
      ((∀ m ∈ ([⟨1, "t", "E01", none, none, some "s", none, true⟩,
            ⟨2, "t", "E02", none, none, some "s", none, true⟩] : List MappingRec),
          ∃ m' ∈ (reconcile "s" "t" ["E01"]
              ⟨[⟨1, "t", "E01", none, none, some "s", none, true⟩,
                ⟨2, "t", "E02", none, none, some "s", none, true⟩], []⟩).mappings,
            m'.mid = m.mid ∧ m'.sheets_identifier = m.sheets_identifier) ∧
        (∀ m ∈ ([⟨1, "t", "E01", none, none, some "s", none, true⟩,
            ⟨2, "t", "E02", none, none, some "s", none, true⟩] : List MappingRec),
          m.is_active = true → m.schedule_def_id = some "s" →
          upperS m.sheets_identifier ∉ parsedSheetCodes ["E01"] →
          ∃ m' ∈ (reconcile "s" "t" ["E01"]
              ⟨[⟨1, "t", "E01", none, none, some "s", none, true⟩,
                ⟨2, "t", "E02", none, none, some "s", none, true⟩], []⟩).mappings,
            m'.mid = m.mid ∧ m'.is_active = false) ∧
        (∀ code, code ∈ activeCodesFor "s"
            (reconcile "s" "t" ["E01"]
              ⟨[⟨1, "t", "E01", none, none, some "s", none, true⟩,
                ⟨2, "t", "E02", none, none, some "s", none, true⟩], []⟩).mappings ↔
          code ∈ parsedSheetCodes ["E01"])) :=
  ⟨by decide,
    reconciler_drift_amended "s" "t" ["E01"]
      ⟨[⟨1, "t", "E01", none, none, some "s", none, true⟩,
        ⟨2, "t", "E02", none, none, some "s", none, true⟩], []⟩
      (by decide) (by decide)⟩

theorem parse_failure_bookkeeping_counterexample :
    (runStore "s" "t" ["員工(姓名/ID)", "2025-11-03"]
        [[("員工(姓名/ID)", some "JOHN"), ("2025-11-03", some "D")]] []
        [⟨"u1", "t", "E01", some "E01", "employee", "active"⟩] []).mappings = [] ∧
      (runStore "s" "t" ["員工(姓名/ID)", "2025-11-03"]
        [[("員工(姓名/ID)", some "JOHN"), ("2025-11-03", some "D")]] []
        [⟨"u1", "t", "E01", some "E01", "employee", "active"⟩] []).cache = [] :=
  ⟨by decide, by decide⟩

/-- **C2 (amended)**: a writer row whose identifier cell fails to parse
into an employee code, and whose full text also misses the identifier
index, is skipped entirely: no cache write *and* no mapping bookkeeping —
the unresolved-mapping upsert runs only for rows that did parse. -/
theorem parse_failure_row_amended (sd tid : String) (idx : Idx) (identCol : String)
    (cols : List String) (st : StoreState) (row : Row) (identRaw : String)
    (hr : rowGet row identCol = some identRaw) (hne : identRaw ≠ "")
    (hparse : (storeParseIdentifierL identRaw.data).1 = none)
    (hidx : resolveS123 idx (upperS (stripS identRaw)) none = none) :
    storeStep sd tid idx identCol cols st row = st := by
  unfold storeStep
  rw [hr]
  dsimp only
  rw [if_neg hne]
  simp only [hparse, Option.map_none']
  rw [hidx]
  rfl

theorem parse_failure_row_amended_witness :
    ((storeParseIdentifierL "JOHN".data).1 = none) ∧
      storeStep "s" "t" [("E01", "u1")] "員工(姓名/ID)"
          ["員工(姓名/ID)", "2025-11-03"]
          ⟨[], [⟨"u1", "t", "E01", some "E01", "employee", "active"⟩], []⟩
          [("員工(姓名/ID)", some "JOHN"), ("2025-11-03", some "D")] =
        ⟨[], [⟨"u1", "t", "E01", some "E01", "employee", "active"⟩], []⟩ :=
  ⟨by decide,
    parse_failure_row_amended "s" "t" [("E01", "u1")] "員工(姓名/ID)"
      ["員工(姓名/ID)", "2025-11-03"]
      ⟨[], [⟨"u1", "t", "E01", some "E01", "employee", "active"⟩], []⟩
      [("員工(姓名/ID)", some "JOHN"), ("2025-11-03", some "D")] "JOHN"
      (by decide) (by decide) (by decide) (by decide)⟩

end SyncService
